import Mathlib

/-!
Verification development for the decision-tree engine in dtree.py.

The Python source is shallowly embedded: Python floats are modelled as
rationals (record values, distribution statistics) except where the code
takes logarithms, in which case results live in the reals; Python dicts are
modelled as association lists in insertion order; code that can raise an
exception returns an Option or Except value, with none / error meaning the
Python call raised.  Recursive procedures take an explicit fuel argument,
mirroring the Python recursion limit; exhausting fuel is a stack-overflow
error, never a normal result.
-/

set_option maxHeartbeats 1600000

/-- Values stored in a record or used as dict keys.  Python None is a real
value in the source (missing attributes are counted under a None key), so it
is a constructor here.  Floats and Decimals are modelled as rationals. -/
inductive Value where
  | none : Value
  | str : String → Value
  | int : Int → Value
  | num : ℚ → Value
deriving DecidableEq, Repr

/-- Numeric reading of a value, used where the source does arithmetic on
record values.  Non-numeric values give a junk 0; theorems that rely on this
function carry the hypothesis that the values involved are numeric. -/
def Value.toQ : Value → ℚ
  | .int n => (n : ℚ)
  | .num q => q
  | _ => 0

def Value.isNumeric : Value → Bool
  | .int _ => true
  | .num _ => true
  | _ => false

/-- A data record: a Python dict from attribute name to value, in insertion
order. -/
def Record := List (String × Value)

instance : DecidableEq Record := by unfold Record; infer_instance

/-- record[name]: first binding for the key, none when the dict access would
raise KeyError. -/
def Record.get? (r : Record) (name : String) : Option Value :=
  match r with
  | [] => Option.none
  | (k, v) :: rest => if k = name then some v else Record.get? rest name

/-- record.get(name): Python dict .get, returning None when absent. -/
def Record.getD (r : Record) (name : String) : Value :=
  (r.get? name).getD .none

/-- del record[name]: drop the first binding for the key. -/
def Record.eraseKey (r : Record) (name : String) : Record :=
  match r with
  | [] => []
  | (k, v) :: rest => if k = name then rest else (k, v) :: Record.eraseKey rest name

/-- record.copy(): a shallow dict copy has the same value; object identity is
modelled by threading record states explicitly through Node.update. -/
def Record.copy (r : Record) : Record := r

/-- counts[k] += c on a counter dict (Python defaultdict(int)), keeping
insertion order. -/
def bump {α : Type} [DecidableEq α] (m : List (α × ℕ)) (k : α) (c : ℕ) : List (α × ℕ) :=
  match m with
  | [] => [(k, c)]
  | (k', c') :: rest => if k' = k then (k', c' + c) :: rest else (k', c') :: bump rest k c

/-- counts[k] for a counter dict: 0 when absent (defaultdict(int) read). -/
def lookupCount {α : Type} [DecidableEq α] (m : List (α × ℕ)) (k : α) : ℕ :=
  match m with
  | [] => 0
  | (k', c) :: rest => if k' = k then c else lookupCount rest k

/-- Generic association-list lookup (first binding wins). -/
def alook {α β : Type} [DecidableEq α] (m : List (α × β)) (k : α) : Option β :=
  match m with
  | [] => Option.none
  | (k', v) :: rest => if k' = k then some v else alook rest k

/-- Association-list read with a default, the read half of a defaultdict. -/
def alookD {α β : Type} [DecidableEq α] (m : List (α × β)) (k : α) (d : β) : β :=
  (alook m k).getD d

/-- m[k] = f(m[k]) on a defaultdict with default d, keeping insertion order
and appending a fresh binding when the key is new. -/
def aupd {α β : Type} [DecidableEq α] (m : List (α × β)) (k : α) (d : β) (f : β → β) :
    List (α × β) :=
  match m with
  | [] => [(k, f d)]
  | (k', v) :: rest => if k' = k then (k', f v) :: rest else (k', v) :: aupd rest k d f

/-! ## DDist: incremental discrete distribution (dtree.py lines 96-196) -/

/-- DDist: counts keyed by element plus a running total. -/
structure DDist where
  counts : List (Value × ℕ)
  total : ℕ
deriving DecidableEq, Repr

def DDist.empty : DDist := ⟨[], 0⟩

/-- DDist.add: increments the count for the given element. -/
def DDist.add (d : DDist) (k : Value) (count : ℕ := 1) : DDist :=
  ⟨bump d.counts k count, d.total + count⟩

/-- DDist(seq) constructor: one add per element. -/
def DDist.ofList (l : List Value) : DDist :=
  l.foldl (fun d k => d.add k) DDist.empty

/-- DDist.__getitem__: probability of an element, cnt/float(total).  The
division is a Python float division and raises ZeroDivisionError when the
total is zero, hence the none. -/
def DDist.getitem (d : DDist) (k : Value) : Option ℚ :=
  if d.total = 0 then Option.none
  else some ((lookupCount d.counts k : ℚ) / (d.total : ℚ))

/-- DDist.best_prob: None when there are no elements, otherwise the largest
probability.  The source folds max starting from -1e999999; probabilities are
nonnegative, so starting from the first element is equivalent. -/
def DDist.best_prob (d : DDist) : Option ℚ :=
  match d.counts with
  | [] => Option.none
  | p :: rest =>
    some (rest.foldl (fun b q => max b ((q.2 : ℚ) / (d.total : ℚ)))
      ((p.2 : ℚ) / (d.total : ℚ)))

/-- DDist.count property: the total. -/
def DDist.count (d : DDist) : ℕ := d.total

/-! ## CDist: incremental continuous distribution (dtree.py lines 198-245) -/

/-- CDist: Welford-style online mean and variance accumulator. -/
structure CDist where
  mean_sum : ℚ
  mean_count : ℕ
  last_variance : ℚ
deriving DecidableEq, Repr

def CDist.empty : CDist := ⟨0, 0, 0⟩

/-- CDist.mean: None while the distribution is empty. -/
def CDist.mean (c : CDist) : Option ℚ :=
  if c.mean_count = 0 then Option.none else some (c.mean_sum / (c.mean_count : ℚ))

/-- CDist.variance: last_variance / mean_count, None while empty. -/
def CDist.variance (c : CDist) : Option ℚ :=
  if c.mean_count = 0 then Option.none else some (c.last_variance / (c.mean_count : ℚ))

/-- CDist.count property. -/
def CDist.count (c : CDist) : ℕ := c.mean_count

/-- CDist.__iadd__: the Welford update step. -/
def CDist.iadd (c : CDist) (value : ℚ) : CDist :=
  let last_mean := c.mean
  let mean_sum := c.mean_sum + value
  let mean_count := c.mean_count + 1
  let last_variance :=
    match last_mean with
    | Option.none => c.last_variance
    | some m => c.last_variance + (value - m) * (value - mean_sum / (mean_count : ℚ))
  ⟨mean_sum, mean_count, last_variance⟩

/-- CDist(seq) constructor: fold += over the sequence. -/
def CDist.ofList (l : List ℚ) : CDist :=
  l.foldl CDist.iadd CDist.empty

/-! ## The statistics helpers mean and variance (dtree.py lines 84-89) -/

/-- mean(seq) = sum(seq)/len(seq).  Raises on an empty list in Python; here
the rational division by zero gives junk 0, and theorems require
nonemptiness. -/
def mean (seq : List ℚ) : ℚ := seq.sum / (seq.length : ℚ)

/-- variance(seq) = sum((v-m)**2 for v in seq)/len(seq): population
variance. -/
def variance (seq : List ℚ) : ℚ :=
  ((seq.map (fun v => (v - mean seq) ^ 2)).sum) / (seq.length : ℚ)

/-! ## Metric names (dtree.py lines 28-54) -/

inductive Metric where
  | entropy1 | entropy2 | entropy3 | variance1 | variance2
deriving DecidableEq, Repr

def Metric.isContinuousMetric : Metric → Bool
  | .variance1 => true
  | .variance2 => true
  | _ => false

/-! ## Claims C8 and C10: distribution-level properties -/

/-- Quadratic expansion of a sum of squared deviations about an arbitrary
centre. -/
lemma sum_sq_sub_expand (l : List ℚ) (c : ℚ) :
    (l.map (fun v => (v - c) ^ 2)).sum
      = (l.map (fun v => v ^ 2)).sum - 2 * c * l.sum + (l.length : ℚ) * c ^ 2 := by
  induction l with
  | nil => simp
  | cons x xs ih =>
    simp only [List.map_cons, List.sum_cons, List.length_cons, ih]
    push_cast
    ring

lemma cdist_ofList_append (l : List ℚ) (x : ℚ) :
    CDist.ofList (l ++ [x]) = (CDist.ofList l).iadd x := by
  simp [CDist.ofList, List.foldl_append]

/-- The state of a CDist built by folding a sequence with the Welford update:
running sum, count, and sum of squared deviations from the running mean. -/
lemma cdist_ofList_state (l : List ℚ) :
    CDist.ofList l = ⟨l.sum, l.length, (l.map (fun v => (v - mean l) ^ 2)).sum⟩ := by
  induction l using List.reverseRecOn with
  | nil => simp [CDist.ofList, CDist.empty, mean]
  | append_singleton l x ih =>
    rw [cdist_ofList_append, ih]
    rcases eq_or_ne l [] with rfl | hl
    · simp [CDist.iadd, CDist.mean, mean]
    · have hlen : l.length ≠ 0 := by simpa using (List.length_pos.mpr hl).ne'
      have hn : (l.length : ℚ) ≠ 0 := Nat.cast_ne_zero.mpr hlen
      have hn1 : ((l.length : ℚ) + 1) ≠ 0 := by positivity
      simp only [CDist.iadd, CDist.mean, if_neg hlen]
      rw [CDist.mk.injEq]
      refine ⟨by simp, by simp, ?_⟩
      simp only [List.map_append, List.sum_append, List.length_append, List.map_cons,
        List.map_nil, List.sum_cons, List.sum_nil, List.length_cons, List.length_nil]
      rw [sum_sq_sub_expand l (mean l), sum_sq_sub_expand l (mean (l ++ [x]))]
      simp only [mean, List.sum_append, List.length_append, List.sum_cons, List.sum_nil,
        List.length_cons, List.length_nil]
      push_cast
      field_simp
      ring

/-- C8: folding a non-empty sequence of rationals into a CDist with += gives
exactly the arithmetic mean of the sequence and exactly its population
variance (sum of squared deviations over n, not n-1), over the rationals. -/
theorem cdist_welford_mean_variance (l : List ℚ) (h : l ≠ []) :
    (CDist.ofList l).mean = some (mean l) ∧
    (CDist.ofList l).variance = some (variance l) := by
  have hlen : l.length ≠ 0 := by simpa using (List.length_pos.mpr h).ne'
  rw [cdist_ofList_state]
  exact ⟨by simp [CDist.mean, hlen, mean], by simp [CDist.variance, hlen, variance]⟩

/-- Witness for C8 at the source test sequence 1..9: mean 5 and population
variance 20/3. -/
theorem cdist_welford_mean_variance_witness :
    ((CDist.ofList [1, 2, 3, 4, 5, 6, 7, 8, 9]).mean
        = some (mean [1, 2, 3, 4, 5, 6, 7, 8, 9]) ∧
      (CDist.ofList [1, 2, 3, 4, 5, 6, 7, 8, 9]).variance
        = some (variance [1, 2, 3, 4, 5, 6, 7, 8, 9])) ∧
    mean [1, 2, 3, 4, 5, 6, 7, 8, 9] = 5 ∧
    variance [1, 2, 3, 4, 5, 6, 7, 8, 9] = 20 / 3 :=
  ⟨cdist_welford_mean_variance _ (by decide), by norm_num [mean],
    by norm_num [variance, mean]⟩

lemma lookupCount_eq_zero_of_alook_none {m : List (Value × ℕ)} {k : Value}
    (h : alook m k = Option.none) : lookupCount m k = 0 := by
  induction m with
  | nil => rfl
  | cons p rest ih =>
    rcases p with ⟨k', c⟩
    by_cases hk : k' = k
    · simp [alook, hk] at h
    · simp only [alook, if_neg hk] at h
      simp only [lookupCount, if_neg hk]
      exact ih h

/-- C10: DDist.__getitem__ under the precondition total > 0 returns
counts[k]/total for a present element and 0 for an absent one, with the
division never failing; with total = 0 the unguarded division raises
(modelled as none). -/
theorem ddist_getitem_spec (d : DDist) (k : Value) :
    (d.total ≠ 0 → d.getitem k = some ((lookupCount d.counts k : ℚ) / (d.total : ℚ))) ∧
    (d.total ≠ 0 → alook d.counts k = Option.none → d.getitem k = some 0) ∧
    (d.total = 0 → d.getitem k = Option.none) := by
  refine ⟨fun h => by simp [DDist.getitem, h], fun h habs => ?_,
    fun h => by simp [DDist.getitem, h]⟩
  simp [DDist.getitem, h, lookupCount_eq_zero_of_alook_none habs]

/-- Witness for C10 on the distribution of [a, a, b]: probability of a is 2/3,
and the empty distribution fails. -/
theorem ddist_getitem_spec_witness :
    ((DDist.ofList [Value.str "a", Value.str "a", Value.str "b"]).getitem (Value.str "a")
        = some ((lookupCount
            (DDist.ofList [Value.str "a", Value.str "a", Value.str "b"]).counts
            (Value.str "a") : ℚ)
          / ((DDist.ofList [Value.str "a", Value.str "a", Value.str "b"]).total : ℚ))) ∧
    DDist.empty.getitem (Value.str "a") = Option.none :=
  ⟨(ddist_getitem_spec _ _).1 (by decide), (ddist_getitem_spec _ _).2.2 (by decide)⟩

/-! ## Attribute type and policy constants (dtree.py lines 76-80, 639-642) -/

def ATTR_TYPE_NOMINAL : String := "nominal"
def ATTR_TYPE_DISCRETE : String := "discrete"
def ATTR_TYPE_CONTINUOUS : String := "continuous"
def USE_NEAREST : String := "use_nearest"

/-! ## Batch metrics on record lists (dtree.py lines 248-354) -/

/-- unique(lst) (dtree.py lines 382-396): first-occurrence deduplication. -/
def uniqueList {α : Type} [DecidableEq α] (l : List α) : List α :=
  l.foldl (fun acc x => if x ∈ acc then acc else acc ++ [x]) []

/-- The class-value count dict built by entropy from a list dataset
(dtree.py lines 263-267); a missing class attribute is counted under the
None key. -/
def classCountsOf (data : List Record) (class_attr : String) : List (Value × ℕ) :=
  data.foldl (fun m r => bump m (r.getD class_attr) 1) []

/-- The count-dict path of entropy (dtree.py lines 268-284): len_data and
total are both the sum of the counts, the log base is max(2, number of
distinct values), and entropy2/entropy3 subtract a multiple of
(len(counts)-1)/total.  A zero total is the assert failure; an unknown
method raises. -/
noncomputable def entropyCounts (counts : List (Value × ℕ)) (method : Metric) : Option ℝ :=
  let len_data : ℕ := (counts.map (fun p => p.2)).sum
  if len_data = 0 then Option.none else
  let n : ℕ := max 2 counts.length
  let e1 : ℝ := -((counts.map (fun p =>
      ((p.2 : ℝ) / (len_data : ℝ))
        * (Real.log ((p.2 : ℝ) / (len_data : ℝ)) / Real.log (n : ℝ)))).sum)
  match method with
  | .entropy1 => some e1
  | .entropy2 => some (e1 - ((counts.length : ℝ) - 1) / (len_data : ℝ))
  | .entropy3 => some (e1 - 100 * (((counts.length : ℝ) - 1) / (len_data : ℝ)))
  | _ => Option.none

/-- entropy (dtree.py lines 248-287) on a list dataset: build the class
counts, then evaluate the count-dict formula. -/
noncomputable def entropy (data : List Record) (class_attr : String) (method : Metric) :
    Option ℝ :=
  entropyCounts (classCountsOf data class_attr) method

/-- entropy_variance (dtree.py lines 289-302) on a list dataset: the
population variance of the class column.  It asserts the method is a
continuous metric and otherwise ignores it; an empty dataset or a
non-numeric class value makes the variance computation raise. -/
def entropy_variance (data : List Record) (class_attr : String) (method : Metric) :
    Option ℚ :=
  if ¬ method.isContinuousMetric then Option.none
  else if data.isEmpty then Option.none
  else if data.all (fun r => (r.getD class_attr).isNumeric) then
    some (variance (data.map (fun r => (r.getD class_attr).toQ)))
  else Option.none

/-- The attr-value frequency dict of gain (dtree.py lines 319-324); keys use
record.get, so records missing the attribute group under the None key. -/
def val_freqOf (data : List Record) (a : String) : List (Value × ℕ) :=
  data.foldl (fun m r => bump m (r.getD a) 1) []

/-- sum(val_freq.values()), the denominator of the value probabilities in
gain. -/
def gainTotal (data : List Record) (attr : String) : ℕ :=
  ((val_freqOf data attr).map (fun p => p.2)).sum

/-- One step of the subset-entropy loop of gain: weight the entropy of the
attr-value subset by its value probability; a crashed entropy computation
poisons the accumulator. -/
def gainSubStep {β : Type} [LinearOrderedField β]
    (entropy_func : List Record → String → Metric → Option β)
    (data : List Record) (attr class_attr : String) (method : Metric)
    (acc : Option β) (p : Value × ℕ) : Option β :=
  match acc, entropy_func (data.filter (fun r => r.getD attr = p.1)) class_attr method with
  | some s, some e => some (s + ((p.2 : β) / ((gainTotal data attr : ℕ) : β)) * e)
  | _, _ => Option.none

/-- The subset-entropy accumulation loop of gain (dtree.py lines 326-332). -/
def gainSubLoop {β : Type} [LinearOrderedField β]
    (entropy_func : List Record → String → Metric → Option β)
    (data : List Record) (attr class_attr : String) (method : Metric) : Option β :=
  (val_freqOf data attr).foldl (gainSubStep entropy_func data attr class_attr method) (some 0)

/-- gain (dtree.py lines 304-348) with the default arguments used by the tree
builder (only_sub=0, prefer_fewer_values=False), generic over the numeric
type and the entropy_func parameter, exactly as the source takes
entropy_func: the whole-dataset entropy minus the weighted subset entropy. -/
def gainG {β : Type} [LinearOrderedField β]
    (entropy_func : List Record → String → Metric → Option β)
    (data : List Record) (attr class_attr : String) (method : Metric) : Option β :=
  match gainSubLoop entropy_func data attr class_attr method,
      entropy_func data class_attr method with
  | some s, some m => some (m - s)
  | _, _ => Option.none

/-- gain with the default entropy function (discrete classes). -/
noncomputable def gain (data : List Record) (attr class_attr : String) (method : Metric) :
    Option ℝ :=
  gainG (fun d c m => entropy d c m) data attr class_attr method

/-- gain_variance (dtree.py lines 350-354): gain with
entropy_func=entropy_variance. -/
def gain_variance (data : List Record) (attr class_attr : String) (method : Metric) :
    Option ℚ :=
  gainG entropy_variance data attr class_attr method

/-! ## Node (dtree.py lines 656-1040) -/

/-- The tree-level state a Node reads through its back-reference: the schema
information held by Data plus the Tree construction options
(dtree.py lines 1048-1087 and 500-528). -/
structure Config where
  is_continuous_class : Bool
  metric : Metric
  splitting_n : ℕ
  leaf_threshold : Option ℚ
  auto_grow : Bool
  class_attr : String
  missing_value_policy : List (String × String)
  header_types : List (String × String)

/-- A tree node.  The fields mirror the instance attributes of class Node
(underscores dropped); the back-reference to the owning tree is replaced by
an explicit Config argument to the operations, and the leaf_count bookkeeping
on the tree is not modelled (no claim concerns it). -/
inductive Node : Type where
  | mk
    (n : ℕ)
    (attr_name : Option String)
    (attr_value_counts : List (String × List (Value × ℕ)))
    (attr_value_count_totals : List (String × ℕ))
    (attr_class_value_counts : List (String × List (Value × List (Value × ℕ))))
    (class_ddist : DDist)
    (attr_value_cdist : List (String × List (Value × CDist)))
    (class_cdist : CDist)
    (branches : List (Value × Node))

def Node.n : Node → ℕ
  | .mk x _ _ _ _ _ _ _ _ => x

def Node.attr_name : Node → Option String
  | .mk _ x _ _ _ _ _ _ _ => x

def Node.attr_value_counts : Node → List (String × List (Value × ℕ))
  | .mk _ _ x _ _ _ _ _ _ => x

def Node.attr_value_count_totals : Node → List (String × ℕ)
  | .mk _ _ _ x _ _ _ _ _ => x

def Node.attr_class_value_counts : Node → List (String × List (Value × List (Value × ℕ)))
  | .mk _ _ _ _ x _ _ _ _ => x

def Node.class_ddist : Node → DDist
  | .mk _ _ _ _ _ x _ _ _ => x

def Node.attr_value_cdist : Node → List (String × List (Value × CDist))
  | .mk _ _ _ _ _ _ x _ _ => x

def Node.class_cdist : Node → CDist
  | .mk _ _ _ _ _ _ _ x _ => x

def Node.branches : Node → List (Value × Node)
  | .mk _ _ _ _ _ _ _ _ x => x

/-- Node(tree): a freshly constructed unsplit node. -/
def Node.empty : Node := .mk 0 Option.none [] [] [] DDist.empty [] CDist.empty []

/-- The self._attr_value_counts[a] dict (defaultdict read). -/
def Node.avCountsAt (nd : Node) (a : String) : List (Value × ℕ) :=
  alookD nd.attr_value_counts a []

/-- The self._attr_class_value_counts[a][v] dict (defaultdict read). -/
def Node.acvCountsAt (nd : Node) (a : String) (v : Value) : List (Value × ℕ) :=
  alookD (alookD nd.attr_class_value_counts a []) v []

/-- The self._attr_value_cdist[a][v] entry (defaultdict read: a fresh CDist
when absent). -/
def Node.avCdistAt (nd : Node) (a : String) (v : Value) : CDist :=
  alookD (alookD nd.attr_value_cdist a []) v CDist.empty

/-- Node.attributes: the keys of _attr_value_counts. -/
def Node.attributes (nd : Node) : List String :=
  nd.attr_value_counts.map Prod.fst

/-- Node.get_values (dtree.py lines 759-767): all values seen for the
attribute.  The source returns a set; it is modelled as a deduplicated list
in the order of the three underlying dicts. -/
def Node.get_values (nd : Node) (a : String) : List Value :=
  uniqueList ((alookD nd.attr_value_cdist a []).map Prod.fst
    ++ (nd.avCountsAt a).map Prod.fst ++ nd.branches.map Prod.fst)

/-- Node.get_value_prob (dtree.py lines 870-878): None when the attribute has
no recorded total, otherwise counts[value]/total. -/
def Node.get_value_prob (nd : Node) (a : String) (v : Value) : Option ℚ :=
  match alook nd.attr_value_count_totals a with
  | Option.none => Option.none
  | some d => some ((lookupCount (nd.avCountsAt a) v : ℚ) / (d : ℚ))

/-- Node.get_value_ddist (dtree.py lines 856-868): the class distribution of
an attribute value rebuilt from the joint counts.  The assert that the class
is discrete cannot fire on any modelled call path, which all guard on the
class type first. -/
def Node.get_value_ddist (nd : Node) (a : String) (v : Value) : DDist :=
  (nd.acvCountsAt a v).foldl (fun d p => d.add p.1 p.2) DDist.empty

/-- The (total, counts, unique_value_count, attr_total) quadruple read by the
discrete branch of Node.get_entropy (dtree.py lines 802-816): totals and
counts come from the class DDist on the whole-node path and from the
per-attribute dicts on the (attr, value) path. -/
def Node.entropyParams (nd : Node) (attr : Option (String × Value)) :
    ℕ × List (Value × ℕ) × ℕ × ℕ :=
  match attr with
  | Option.none =>
    (nd.class_ddist.total, nd.class_ddist.counts, nd.class_ddist.counts.length,
      nd.class_ddist.total)
  | some (a, v) =>
    (lookupCount (nd.avCountsAt a) v, nd.acvCountsAt a v, (nd.avCountsAt a).length,
      alookD nd.attr_value_count_totals a 0)

/-- Discrete-class branch of Node.get_entropy (dtree.py lines 801-843).
A zero total is the assert failure; a continuous metric falls off the end of
the Python function and the resulting None poisons the caller. -/
noncomputable def Node.get_entropy_dis (nd : Node) (metric : Metric)
    (attr : Option (String × Value)) : Option ℝ :=
  let p := nd.entropyParams attr
  let total := p.1
  let counts := p.2.1
  let unique_value_count := p.2.2.1
  let attr_total := p.2.2.2
  if total = 0 then Option.none else
  let n : ℕ := max 2 counts.length
  let e1 : ℝ := -((counts.map (fun kc =>
      ((kc.2 : ℝ) / (total : ℝ))
        * (Real.log ((kc.2 : ℝ) / (total : ℝ)) / Real.log (n : ℝ)))).sum)
  match metric with
  | .entropy1 => some e1
  | .entropy2 => some (e1 + ((unique_value_count : ℝ) / (attr_total : ℝ)))
  | .entropy3 => some (e1 + 100 * ((unique_value_count : ℝ) / (attr_total : ℝ)))
  | _ => Option.none

/-- Continuous-class branch of Node.get_entropy (dtree.py lines 788-800).
A None variance is returned as None by the source and poisons the caller
there, so it is conflated with the crash none; an entropy metric on the
(attr, value) path falls off the end of the function likewise. -/
def Node.get_entropy_con (nd : Node) (metric : Metric)
    (attr : Option (String × Value)) : Option ℚ :=
  let var? := match attr with
    | Option.none => nd.class_cdist.variance
    | some (a, v) => (nd.avCdistAt a v).variance
  match var? with
  | Option.none => Option.none
  | some var =>
    match metric, attr with
    | .variance1, _ => some var
    | _, Option.none => some var
    | .variance2, some (a, _) =>
      some (var * (((nd.avCountsAt a).length : ℚ)
        / ((alookD nd.attr_value_count_totals a 0 : ℕ) : ℚ)))
    | _, _ => Option.none

/-- Node.get_gain (dtree.py lines 845-854), discrete-class metrics. -/
noncomputable def Node.get_gain_dis (nd : Node) (metric : Metric) (a : String) : Option ℝ :=
  let sub := (nd.avCountsAt a).foldl (fun acc p =>
    match acc, nd.get_value_prob a p.1, nd.get_entropy_dis metric (some (a, p.1)) with
    | some s, some vp, some e => some (s + (vp : ℝ) * e)
    | _, _, _ => Option.none) (some 0)
  match sub, nd.get_entropy_dis metric Option.none with
  | some s, some m => some (m - s)
  | _, _ => Option.none

/-- Node.get_gain (dtree.py lines 845-854), continuous-class metrics. -/
def Node.get_gain_con (nd : Node) (metric : Metric) (a : String) : Option ℚ :=
  let sub := (nd.avCountsAt a).foldl (fun acc p =>
    match acc, nd.get_value_prob a p.1, nd.get_entropy_con metric (some (a, p.1)) with
    | some s, some vp, some e => some (s + vp * e)
    | _, _, _ => Option.none) (some 0)
  match sub, nd.get_entropy_con metric Option.none with
  | some s, some m => some (m - s)
  | _, _ => Option.none

/-- The (gain, attr) tuple max scan of get_best_splitting_attr (dtree.py
lines 773-781).  The outer none is a crashed gain computation; the inner
option is the chosen attribute (None when there are no attributes).  The
source starts the scan from (-1e999999, None); every computed gain exceeds
that sentinel, so folding from the first attribute is equivalent, and ties in
the gain are broken by the larger attribute name exactly as Python tuple
comparison does. -/
def bestAttrBy {β : Type} [LinearOrder β] (g : String → Option β) (attrs : List String) :
    Option (Option String) :=
  let folded : Option (Option (β × String)) := attrs.foldl (fun acc a =>
    match acc with
    | Option.none => Option.none
    | some cur =>
      match g a with
      | Option.none => Option.none
      | some ga =>
        match cur with
        | Option.none => some (some (ga, a))
        | some (gb, b) =>
          if gb < ga ∨ (gb = ga ∧ b < a) then some (some (ga, a)) else some (some (gb, b)))
    (some Option.none)
  match folded with
  | Option.none => Option.none
  | some Option.none => some Option.none
  | some (some (_, b)) => some (some b)

/-- Node.get_best_splitting_attr (dtree.py lines 773-781).  The class-type
dispatch that the source performs inside get_entropy is lifted here so that
the continuous path stays in the rationals. -/
noncomputable def Node.get_best_splitting_attr (cfg : Config) (nd : Node) :
    Option (Option String) :=
  if cfg.is_continuous_class then bestAttrBy (fun a => nd.get_gain_con cfg.metric a) nd.attributes
  else bestAttrBy (fun a => nd.get_gain_dis cfg.metric a) nd.attributes

/-- Node.ready_to_predict (dtree.py lines 924-926). -/
def Node.ready_to_predict (nd : Node) : Bool := nd.n > 0

/-- Node.ready_to_split (dtree.py lines 928-949): an adequate leaf (quality
statistic and threshold both defined, and the statistic on the adequate side
of the threshold) never splits; otherwise splitting requires auto_grow, an
unsplit node and enough samples. -/
def Node.ready_to_split (cfg : Config) (nd : Node) : Bool :=
  let tail := cfg.auto_grow && nd.attr_name.isNone && (cfg.splitting_n ≤ nd.n)
  if cfg.is_continuous_class then
    match nd.class_cdist.variance, cfg.leaf_threshold with
    | some var, some t => if var ≤ t then false else tail
    | _, _ => tail
  else
    match nd.class_ddist.best_prob, cfg.leaf_threshold with
    | some bp, some t => if t ≤ bp then false else tail
    | _, _ => tail

/-- Failure modes of the modelled operations: the NodeNotReadyToPredict
exception, dict KeyError, failed assert, any other raised exception, and the
Python recursion limit. -/
inductive PErr where
  | notReady | keyError | assertError | otherError | stackOverflow
deriving DecidableEq, Repr

/-- The nearest-value scan of the use-nearest policy (dtree.py lines
742-748): min over (abs difference, value) tuples starting from
(1e999999, None).  Every difference stays below the sentinel, so folding from
the first element is equivalent; on a tie in the difference the numerically
smaller value wins, because Python tuple comparison falls through to the
second component. -/
def nearestStep (q : ℚ) (best : Option Value) (v : Value) : Option Value :=
  match best with
  | Option.none => some v
  | some b =>
    if |v.toQ - q| < |b.toQ - q| ∨ (|v.toQ - q| = |b.toQ - q| ∧ v.toQ < b.toQ)
    then some v else some b

def nearestFold (vals : List Value) (q : ℚ) : Value :=
  (vals.foldl (nearestStep q) Option.none).getD .none

/-- Node._get_attribute_value_for_node (dtree.py lines 711-750): None for an
unsplit node; the record value when it is known; otherwise the missing-value
policy, where no policy (or a falsy one) is an assert failure, use-nearest
demands a discrete or continuous attribute type, and any other policy name
raises. -/
def Node.get_attribute_value_for_node (cfg : Config) (nd : Node) (r : Record) :
    Except PErr Value :=
  match nd.attr_name with
  | Option.none => .ok .none
  | some attr =>
    match r.get? attr with
    | Option.none => .error .keyError
    | some attr_value =>
      let attr_values := nd.get_values attr
      if attr_value ∈ attr_values then .ok attr_value
      else
        match alook cfg.missing_value_policy attr with
        | Option.none => .error .assertError
        | some policy =>
          if policy = "" then .error .assertError
          else if policy = USE_NEAREST then
            match alook cfg.header_types attr with
            | Option.none => .error .keyError
            | some t =>
              if t = ATTR_TYPE_DISCRETE ∨ t = ATTR_TYPE_CONTINUOUS then
                .ok (nearestFold attr_values attr_value.toQ)
              else .error .assertError
          else .error .otherError

/-- The tagged prediction result: DDist for classification, CDist for
regression. -/
inductive LeafDist where
  | ddist (d : DDist)
  | cdist (c : CDist)
deriving DecidableEq, Repr

/-- Node.predict (dtree.py lines 887-926), with fuel for the Python recursion
limit.  An unready node raises NodeNotReadyToPredict; a split node descends
into the child keyed by the resolved attribute value and converts exactly a
child NodeNotReadyToPredict into its own attribute-value distribution; an
unsplit node returns its marginal class distribution. -/
def Node.predict (cfg : Config) : ℕ → Node → Record → Except PErr LeafDist
  | 0, _, _ => .error .stackOverflow
  | fuel + 1, nd, r =>
    if !nd.ready_to_predict then .error .notReady
    else
      match nd.get_attribute_value_for_node cfg r with
      | .error e => .error e
      | .ok attr_value =>
        match nd.attr_name with
        | some a =>
          let fallback : Except PErr LeafDist :=
            if cfg.is_continuous_class then .ok (.cdist (nd.avCdistAt a attr_value))
            else .ok (.ddist (nd.get_value_ddist a attr_value))
          (match alook nd.branches attr_value with
           | some child =>
             match Node.predict cfg fuel child r with
             | .ok d => .ok d
             | .error .notReady => fallback
             | .error e => .error e
           | Option.none => fallback)
        | Option.none =>
          if cfg.is_continuous_class then .ok (.cdist nd.class_cdist)
          else .ok (.ddist nd.class_ddist)

/-- One step of the attribute-statistics loop of Node.update (dtree.py lines
1017-1025). -/
def Node.updateAttrStat (cfg : Config) (class_value : Value) (nd : Node)
    (p : String × Value) : Node :=
  if p.1 = cfg.class_attr then nd
  else
    .mk nd.n nd.attr_name
      (aupd nd.attr_value_counts p.1 [] (fun m => bump m p.2 1))
      (aupd nd.attr_value_count_totals p.1 0 (fun t => t + 1))
      (if cfg.is_continuous_class then nd.attr_class_value_counts
       else aupd nd.attr_class_value_counts p.1 []
         (fun m => aupd m p.2 [] (fun cm => bump cm class_value 1)))
      nd.class_ddist
      (if cfg.is_continuous_class then
         aupd nd.attr_value_cdist p.1 []
           (fun m => aupd m p.2 CDist.empty (fun c => c.iadd class_value.toQ))
       else nd.attr_value_cdist)
      nd.class_cdist nd.branches

/-- The statistics phase of Node.update (dtree.py lines 1003-1025): increment
n, update the marginal class distribution, then fold the per-attribute
statistics over the record.  A missing class attribute is the KeyError. -/
def Node.updateStats (cfg : Config) (nd : Node) (r : Record) : Option Node :=
  match r.get? cfg.class_attr with
  | Option.none => Option.none
  | some class_value =>
    let nd1 : Node := .mk (nd.n + 1) nd.attr_name nd.attr_value_counts
      nd.attr_value_count_totals nd.attr_class_value_counts
      (if cfg.is_continuous_class then nd.class_ddist else nd.class_ddist.add class_value)
      nd.attr_value_cdist
      (if cfg.is_continuous_class then nd.class_cdist.iadd class_value.toQ else nd.class_cdist)
      nd.branches
    some (r.foldl (fun acc p => acc.updateAttrStat cfg class_value p) nd1)

/-- self._branches[key] = child. -/
def Node.setBranch (nd : Node) (key : Value) (child : Node) : Node :=
  .mk nd.n nd.attr_name nd.attr_value_counts nd.attr_value_count_totals
    nd.attr_class_value_counts nd.class_ddist nd.attr_value_cdist nd.class_cdist
    (aupd nd.branches key Node.empty (fun _ => child))

/-- The split phase of Node.update (dtree.py lines 1027-1034): when ready,
fix the best splitting attribute and create one empty child per observed
value of that attribute.  A None best attribute leaves the node unsplit (the
spurious empty _attr_value_counts[None] entry the defaultdict read creates in
Python is not modelled); a crashed gain computation propagates. -/
noncomputable def Node.splitIfReady (cfg : Config) (nd : Node) : Option Node :=
  if nd.ready_to_split cfg then
    match nd.get_best_splitting_attr cfg with
    | Option.none => Option.none
    | some best =>
      some (.mk nd.n best nd.attr_value_counts nd.attr_value_count_totals
        nd.attr_class_value_counts nd.class_ddist nd.attr_value_cdist nd.class_cdist
        (match best with
         | some a => (nd.avCountsAt a).foldl
             (fun bs p => aupd bs p.1 Node.empty (fun _ => Node.empty)) nd.branches
         | Option.none => nd.branches))
  else some nd

/-- Node.update (dtree.py lines 999-1040), with fuel.  The record component
of the result is the final state of the dict object passed in: the split
attribute entries are deleted along the path. -/
noncomputable def Node.update (cfg : Config) : ℕ → Node → Record → Option (Node × Record)
  | 0, _, _ => Option.none
  | fuel + 1, nd, r =>
    match nd.updateStats cfg r with
    | Option.none => Option.none
    | some nd1 =>
      match nd1.splitIfReady cfg with
      | Option.none => Option.none
      | some nd2 =>
        match nd2.attr_name with
        | Option.none => some (nd2, r)
        | some a =>
          match r.get? a with
          | Option.none => Option.none
          | some key =>
            let r1 := r.eraseKey a
            match alook nd2.branches key with
            | Option.none => Option.none
            | some child =>
              match Node.update cfg fuel child r1 with
              | Option.none => Option.none
              | some (c1, r2) => some (nd2.setBranch key c1, r2)

/-- Tree.update (dtree.py lines 1180-1187): assert the class attribute is
present, copy the record, update the root.  The record component of the
result is the state of the caller record after the call: the original
record, because only the copy is passed to the root. -/
noncomputable def Tree.update (cfg : Config) (fuel : ℕ) (root : Node) (r : Record) :
    Option (Node × Record) :=
  match r.get? cfg.class_attr with
  | Option.none => Option.none
  | some _ => (Node.update cfg fuel root r.copy).map (fun p => (p.1, r))

/-- Tree.predict (dtree.py lines 1130-1132): copy the record, predict at the
root.  Node.predict performs no record mutation, so no record state is
returned. -/
def Tree.predict (cfg : Config) (fuel : ℕ) (root : Node) (r : Record) :
    Except PErr LeafDist :=
  Node.predict cfg fuel root r.copy

/-! ## Batch construction (dtree.py lines 356-490, 951-973, 1092-1114) -/

/-- Data.is_valid (dtree.py lines 559-572): schema type check for one
value. -/
def data_is_valid (header_types : List (String × String)) (name : String) (v : Value) : Bool :=
  match alook header_types name with
  | Option.none => false
  | some t =>
    if t = ATTR_TYPE_DISCRETE then (match v with | .int _ => true | _ => false)
    else if t = ATTR_TYPE_CONTINUOUS then (match v with | .num _ => true | _ => false)
    else true

/-- Node.set_leaf_dist (dtree.py lines 951-973).  Asserts the node is split
and the value is schema-valid; for a continuous class it stores the CDist
under (attr_name, value), for a discrete class it bumps the attribute value
count and total by one and merges the DDist counts into the joint counts.
A distribution of the wrong kind is the isinstance assert failure. -/
def Node.set_leaf_dist (cfg : Config) (nd : Node) (attr_value : Value) (dist : LeafDist) :
    Option Node :=
  match nd.attr_name with
  | Option.none => Option.none
  | some a =>
    if ¬ data_is_valid cfg.header_types a attr_value then Option.none else
    match cfg.is_continuous_class, dist with
    | true, .cdist c =>
      some (.mk nd.n nd.attr_name nd.attr_value_counts nd.attr_value_count_totals
        nd.attr_class_value_counts nd.class_ddist
        (aupd nd.attr_value_cdist a [] (fun m => aupd m attr_value CDist.empty (fun _ => c)))
        nd.class_cdist nd.branches)
    | false, .ddist d =>
      some (.mk nd.n nd.attr_name
        (aupd nd.attr_value_counts a [] (fun m => bump m attr_value 1))
        (aupd nd.attr_value_count_totals a 0 (fun t => t + 1))
        (aupd nd.attr_class_value_counts a []
          (fun m => aupd m attr_value []
            (fun cm => d.counts.foldl (fun acc p => bump acc p.1 p.2) cm)))
        nd.class_ddist nd.attr_value_cdist nd.class_cdist nd.branches)
    | _, _ => Option.none

/-- choose_attribute (dtree.py lines 405-416): the (gain, attr) tuple scan
over the attributes, skipping the class attribute, generic over the numeric
type of the fitness function (Python duck types the gain as float). -/
def choose_attribute {β : Type} [LinearOrder β]
    (fitness : List Record → String → String → Metric → Option β)
    (data : List Record) (attributes : List String) (class_attr : String)
    (method : Metric) : Option (Option String) :=
  bestAttrBy (fun a => fitness data a class_attr method)
    (attributes.filter (fun x => x ≠ class_attr))

/-- get_values (dtree.py lines 398-403): unique values of the attribute over
the records; record[attr] raises when the attribute is absent. -/
def get_values_data (data : List Record) (a : String) : Option (List Value) :=
  (data.mapM (fun (r : Record) => r.get? a)).map uniqueList

/-- What create_decision_tree returns: a leaf distribution or an inner
Node. -/
inductive BuiltTree where
  | leaf (d : LeafDist)
  | node (nd : Node)

/-- create_decision_tree (dtree.py lines 421-490), with fuel for the Python
recursion limit, generic over the numeric type of the fitness function.
The wrapper argument of the source is the Config; its leaf_count bookkeeping
is not modelled.  The stop value is the class distribution of the dataset; an
empty dataset or exhausted attribute list returns it as a leaf, as does a met
stop criterion; otherwise the node splits on the best attribute and recurses
per observed value. -/
def create_decision_tree {β : Type} [LinearOrder β]
    (fitness : List Record → String → String → Metric → Option β)
    (cfg : Config) : ℕ → List Record → List String → String → Option BuiltTree
  | 0, _, _, _ => Option.none
  | fuel + 1, data, attributes, class_attr =>
    match data.mapM (fun (r : Record) => r.get? class_attr) with
    | Option.none => Option.none
    | some class_vals =>
      let stop_value : LeafDist :=
        if cfg.is_continuous_class then .cdist (CDist.ofList (class_vals.map Value.toQ))
        else .ddist (DDist.ofList class_vals)
      let stop : Bool :=
        match stop_value with
        | .cdist c =>
          match cfg.leaf_threshold, c.variance with
          | some t, some v => v ≤ t
          | some _, Option.none => true
          | Option.none, _ => false
        | .ddist d => d.counts.length ≤ 1
      if data.isEmpty ∨ attributes.length - 1 = 0 then some (.leaf stop_value)
      else if stop then some (.leaf stop_value)
      else
        match choose_attribute fitness data attributes class_attr cfg.metric with
        | Option.none => Option.none
        | some Option.none => Option.none
        | some (some best) =>
          match get_values_data data best with
          | Option.none => Option.none
          | some vals =>
            let base : Node := .mk data.length (some best) [] [] [] DDist.empty [] CDist.empty []
            (vals.foldlM (fun (nd : Node) (v : Value) =>
              match create_decision_tree fitness cfg fuel
                  (data.filter (fun r => r.get? best = some v))
                  (attributes.filter (fun x => x ≠ best)) class_attr with
              | Option.none => Option.none
              | some (.node sub) => some (nd.setBranch v sub)
              | some (.leaf dist) => nd.set_leaf_dist cfg v dist) base).map BuiltTree.node

/-! ## Claim C1: the entropy2 / entropy3 relation to entropy1 -/

/-- C1 (amended): at the node level (Node.get_entropy, both the whole-node
path and the (attr, value) path) entropy2 is entropy1 plus U/A and entropy3
is entropy1 plus 100 times U/A, with U the unique-value count and A the
attribute total of Node.entropyParams; the batch entropy function instead
computes entropy1 minus (U-1)/len_data (entropy3: minus 100 times that), it
does not add U/len_data. -/
theorem entropy2_entropy3_relations :
    (∀ (nd : Node) (ap : Option (String × Value)),
      nd.get_entropy_dis .entropy2 ap = (nd.get_entropy_dis .entropy1 ap).map
        (fun e => e + (((nd.entropyParams ap).2.2.1 : ℝ) / ((nd.entropyParams ap).2.2.2 : ℝ))) ∧
      nd.get_entropy_dis .entropy3 ap = (nd.get_entropy_dis .entropy1 ap).map
        (fun e => e + 100 * (((nd.entropyParams ap).2.2.1 : ℝ)
          / ((nd.entropyParams ap).2.2.2 : ℝ)))) ∧
    (∀ (counts : List (Value × ℕ)),
      entropyCounts counts .entropy2 = (entropyCounts counts .entropy1).map
        (fun e => e - ((counts.length : ℝ) - 1) / (((counts.map (fun p => p.2)).sum : ℕ) : ℝ)) ∧
      entropyCounts counts .entropy3 = (entropyCounts counts .entropy1).map
        (fun e => e - 100 * (((counts.length : ℝ) - 1)
          / (((counts.map (fun p => p.2)).sum : ℕ) : ℝ)))) := by
  constructor
  · intro nd ap
    constructor <;> (simp only [Node.get_entropy_dis]; split <;> simp)
  · intro counts
    constructor <;> (simp only [entropyCounts]; split <;> simp)

/-- Counterexample to C1 as stated: on the two-record dataset with class
values a and b, the batch path gives entropy2 = entropy1 - 1/2, not
entropy1 + U/len_data = entropy1 + 1. -/
theorem entropy2_batch_counterexample :
    entropy [[("cls", Value.str "a")], [("cls", Value.str "b")]] "cls" .entropy2
      ≠ (entropy [[("cls", Value.str "a")], [("cls", Value.str "b")]] "cls" .entropy1).map
          (fun e => e + (2 : ℝ) / 2) := by
  intro h
  have hc : classCountsOf [[("cls", Value.str "a")], [("cls", Value.str "b")]] "cls"
      = [(Value.str "a", 1), (Value.str "b", 1)] := by decide
  rw [entropy, entropy, hc] at h
  simp only [entropyCounts, List.map_cons, List.map_nil, List.sum_cons, List.sum_nil,
    List.length_cons, List.length_nil, Option.map_some] at h
  norm_num at h
  linarith

/-! ## Claim C2: sign of the information gain -/

/-- The statistics relevant to attribute d of the root node that the source
test builds by streaming the 16-row cdata2 dataset (test_online_tree,
dtree.py lines 1519-1532): classes a and b eight times each; d takes eight
values, each seen twice, each jointly once with a and once with b.  The
statistics of the other attributes are omitted because get_gain for d does
not read them. -/
def nodeCdata2d : Node :=
  .mk 16 Option.none
    [("d", [(Value.int 1, 2), (Value.int 2, 2), (Value.int 3, 2), (Value.int 4, 2),
            (Value.int 5, 2), (Value.int 6, 2), (Value.int 7, 2), (Value.int 8, 2)])]
    [("d", 16)]
    [("d", [(Value.int 1, [(Value.str "a", 1), (Value.str "b", 1)]),
            (Value.int 2, [(Value.str "a", 1), (Value.str "b", 1)]),
            (Value.int 3, [(Value.str "a", 1), (Value.str "b", 1)]),
            (Value.int 4, [(Value.str "a", 1), (Value.str "b", 1)]),
            (Value.int 5, [(Value.str "a", 1), (Value.str "b", 1)]),
            (Value.int 6, [(Value.str "a", 1), (Value.str "b", 1)]),
            (Value.int 7, [(Value.str "a", 1), (Value.str "b", 1)]),
            (Value.int 8, [(Value.str "a", 1), (Value.str "b", 1)])])]
    (DDist.mk [(Value.str "a", 8), (Value.str "b", 8)] 16)
    [] CDist.empty []

/-- Counterexample to C2: on the node statistics of the source test,
Node.get_gain with metric entropy2 on attribute d is -3/8, which is
negative (the test itself expects the sorted gains to start with
(-0.375, d)). -/
theorem node_gain_entropy2_negative :
    nodeCdata2d.get_gain_dis .entropy2 "d" = some (-(3 / 8 : ℝ))
      ∧ (-(3 / 8 : ℝ) < 0) := by
  have hlog2 : Real.log (2 : ℝ) ≠ 0 := ne_of_gt (Real.log_pos (by norm_num))
  have h12 : Real.log ((1 : ℝ) / 2) = -Real.log 2 := by
    rw [one_div, Real.log_inv]
  refine ⟨?_, by norm_num⟩
  simp only [Node.get_gain_dis, Node.get_entropy_dis, Node.entropyParams, Node.get_value_prob,
    Node.avCountsAt, Node.acvCountsAt, Node.class_ddist, Node.attr_value_counts,
    Node.attr_class_value_counts, Node.attr_value_count_totals, nodeCdata2d, alookD, alook,
    lookupCount, List.foldl_cons, List.foldl_nil, List.map_cons, List.map_nil, List.sum_cons,
    List.sum_nil, List.length_cons, List.length_nil]
  norm_num [h12]

section BumpLemmas

variable {α : Type} [DecidableEq α]

lemma lookupCount_bump (m : List (α × ℕ)) (k k' : α) (c : ℕ) :
    lookupCount (bump m k c) k' = lookupCount m k' + (if k' = k then c else 0) := by
  induction m with
  | nil =>
    by_cases h : k = k'
    · subst h; simp [bump, lookupCount]
    · simp [bump, lookupCount, h, Ne.symm h]
  | cons q rest ih =>
    rcases q with ⟨a, b⟩
    by_cases h1 : a = k
    · subst h1
      by_cases h2 : a = k'
      · subst h2; simp [bump, lookupCount]
      · simp [bump, lookupCount, h2, Ne.symm h2]
    · by_cases h2 : a = k'
      · subst h2
        simp [bump, lookupCount, h1, Ne.symm h1]
      · simp [bump, lookupCount, h1, h2, ih]

lemma mem_keys_bump (m : List (α × ℕ)) (k k' : α) (c : ℕ) :
    k' ∈ (bump m k c).map Prod.fst ↔ k' ∈ m.map Prod.fst ∨ k' = k := by
  induction m with
  | nil => simp [bump]
  | cons q rest ih =>
    rcases q with ⟨a, b⟩
    by_cases h1 : a = k
    · subst h1
      simp [bump]
      tauto
    · simp [bump, h1, ih]
      tauto

lemma nodup_keys_bump (m : List (α × ℕ)) (k : α) (c : ℕ)
    (h : (m.map Prod.fst).Nodup) : ((bump m k c).map Prod.fst).Nodup := by
  induction m with
  | nil => simp [bump]
  | cons q rest ih =>
    rcases q with ⟨a, b⟩
    simp only [List.map_cons, List.nodup_cons] at h
    by_cases h1 : a = k
    · subst h1
      have hb : bump ((a, b) :: rest) a c = (a, b + c) :: rest := by simp [bump]
      rw [hb]
      simp only [List.map_cons, List.nodup_cons]
      exact h
    · have hb : bump ((a, b) :: rest) k c = (a, b) :: bump rest k c := by simp [bump, h1]
      rw [hb]
      simp only [List.map_cons, List.nodup_cons]
      refine ⟨?_, ih h.2⟩
      rw [mem_keys_bump]
      rintro (hm | rfl)
      · exact h.1 hm
      · exact h1 rfl

lemma sum_bump (m : List (α × ℕ)) (k : α) (c : ℕ) :
    ((bump m k c).map (fun p => p.2)).sum = (m.map (fun p => p.2)).sum + c := by
  induction m with
  | nil => simp [bump]
  | cons q rest ih =>
    rcases q with ⟨a, b⟩
    by_cases h1 : a = k <;> simp [bump, h1, ih] <;> omega

lemma lookupCount_of_mem {m : List (α × ℕ)} (h : (m.map Prod.fst).Nodup)
    {p : α × ℕ} (hp : p ∈ m) : lookupCount m p.1 = p.2 := by
  induction m with
  | nil => simp at hp
  | cons q rest ih =>
    rcases q with ⟨a, b⟩
    simp only [List.map_cons, List.nodup_cons] at h
    rcases List.mem_cons.mp hp with heq | hp1
    · rw [heq]
      simp [lookupCount]
    · have hne : a ≠ p.1 := by
        intro he
        apply h.1
        rw [he]
        exact List.mem_map_of_mem Prod.fst hp1
      simp only [lookupCount, if_neg hne]
      exact ih h.2 hp1

end BumpLemmas

section FreqLemmas

variable {R α : Type} [DecidableEq α] (f : R → α)

lemma foldl_bump_lookupCount (data : List R) (m0 : List (α × ℕ)) (k : α) :
    lookupCount (data.foldl (fun m r => bump m (f r) 1) m0) k
      = lookupCount m0 k + data.countP (fun r => f r = k) := by
  induction data generalizing m0 with
  | nil => simp
  | cons r rest ih =>
    simp only [List.foldl_cons, ih, lookupCount_bump, List.countP_cons]
    by_cases h : f r = k
    · subst h
      simp
      omega
    · simp [h, Ne.symm h]

lemma foldl_bump_mem_keys (data : List R) (m0 : List (α × ℕ)) (k : α) :
    k ∈ ((data.foldl (fun m r => bump m (f r) 1) m0).map Prod.fst)
      ↔ k ∈ m0.map Prod.fst ∨ k ∈ data.map f := by
  induction data generalizing m0 with
  | nil => simp
  | cons r rest ih =>
    simp only [List.foldl_cons, ih, mem_keys_bump, List.map_cons, List.mem_cons]
    tauto

lemma foldl_bump_nodup (data : List R) (m0 : List (α × ℕ))
    (h : (m0.map Prod.fst).Nodup) :
    ((data.foldl (fun m r => bump m (f r) 1) m0).map Prod.fst).Nodup := by
  induction data generalizing m0 with
  | nil => exact h
  | cons r rest ih =>
    simp only [List.foldl_cons]
    exact ih _ (nodup_keys_bump _ _ _ h)

lemma foldl_bump_sum (data : List R) (m0 : List (α × ℕ)) :
    (((data.foldl (fun m r => bump m (f r) 1) m0).map (fun p => p.2)).sum)
      = ((m0.map (fun p => p.2)).sum) + data.length := by
  induction data generalizing m0 with
  | nil => simp
  | cons r rest ih =>
    simp only [List.foldl_cons, ih, sum_bump, List.length_cons]
    omega

end FreqLemmas

lemma val_freqOf_nodup (data : List Record) (a : String) :
    ((val_freqOf data a).map Prod.fst).Nodup :=
  foldl_bump_nodup _ data [] (by simp)

lemma val_freqOf_mem_keys (data : List Record) (a : String) (k : Value) :
    k ∈ (val_freqOf data a).map Prod.fst ↔ k ∈ data.map (fun r => r.getD a) := by
  rw [val_freqOf, foldl_bump_mem_keys]
  simp

lemma gainTotal_eq_length (data : List Record) (a : String) :
    gainTotal data a = data.length := by
  rw [gainTotal, val_freqOf, foldl_bump_sum]
  simp

/-- Every entry of the value-frequency dict counts a nonempty filtered
subset: the count is the length of the subset and is positive. -/
lemma val_freqOf_count (data : List Record) (a : String) {p : Value × ℕ}
    (hp : p ∈ val_freqOf data a) :
    p.2 = (data.filter (fun r => r.getD a = p.1)).length ∧ 0 < p.2 := by
  have h1 : lookupCount (val_freqOf data a) p.1 = p.2 :=
    lookupCount_of_mem (val_freqOf_nodup data a) hp
  have h2 : lookupCount (val_freqOf data a) p.1
      = data.countP (fun r => r.getD a = p.1) := by
    rw [val_freqOf, foldl_bump_lookupCount]
    simp [lookupCount]
  have hk : p.1 ∈ (val_freqOf data a).map Prod.fst := List.mem_map_of_mem Prod.fst hp
  rw [val_freqOf_mem_keys] at hk
  obtain ⟨r, hr, hrk⟩ := List.mem_map.mp hk
  constructor
  · rw [← h1, h2, List.countP_eq_length_filter]
  · rw [← h1, h2]
    exact List.countP_pos_iff.mpr ⟨r, hr, by simp [hrk]⟩

/-- Summing an indicator over a duplicate-free key list that contains the key
picks out exactly the tagged term. -/
lemma sum_ite_single {α : Type} [DecidableEq α] (ks : List α) (hnd : ks.Nodup)
    (a : α) (ha : a ∈ ks) (c : ℚ) :
    (ks.map (fun k => if a = k then c else 0)).sum = c := by
  induction ks with
  | nil => simp at ha
  | cons k rest ih =>
    simp only [List.nodup_cons] at hnd
    rcases List.mem_cons.mp ha with rfl | ha'
    · simp only [List.map_cons, List.sum_cons, if_pos rfl]
      have : ∀ x ∈ rest, (if a = x then c else 0) = 0 := by
        intro x hx
        rw [if_neg]
        rintro rfl
        exact hnd.1 hx
      rw [List.sum_eq_zero (by simpa using fun x hx => this x hx)]
      simp
    · have hka : ¬ k = a := by rintro rfl; exact hnd.1 ha'
      have haj : ¬ a = k := fun hh => hka hh.symm
      simp only [List.map_cons, List.sum_cons, if_neg haj]
      rw [ih hnd.2 ha']
      simp

lemma sum_map_add {α : Type} (ks : List α) (F G : α → ℚ) :
    (ks.map (fun k => F k + G k)).sum = (ks.map F).sum + (ks.map G).sum := by
  induction ks with
  | nil => simp
  | cons k kr ih =>
    simp only [List.map_cons, List.sum_cons, ih]
    ring

/-- Grouping a sum over the records by a duplicate-free covering key list. -/
lemma sum_partition {R α : Type} [DecidableEq α] (key : R → α) (g : R → ℚ) :
    ∀ (data : List R) (ks : List α), ks.Nodup → (∀ r ∈ data, key r ∈ ks) →
      (ks.map (fun k => ((data.filter (fun r => key r = k)).map g).sum)).sum
        = (data.map g).sum := by
  intro data
  induction data with
  | nil => intro ks _ _; simp
  | cons r rest ih =>
    intro ks hnd hcov
    have hk : key r ∈ ks := hcov r (by simp)
    have hsplit : ∀ k : α, (((r :: rest).filter (fun x => key x = k)).map g).sum
        = (if key r = k then g r else 0)
          + ((rest.filter (fun x => key x = k)).map g).sum := by
      intro k
      by_cases h : key r = k <;> simp [List.filter_cons, h]
    simp only [hsplit]
    rw [sum_map_add ks (fun k => if key r = k then g r else 0)
      (fun k => ((rest.filter (fun x => key x = k)).map g).sum),
      sum_ite_single ks hnd (key r) hk, ih ks hnd (fun x hx => hcov x (by simp [hx]))]
    simp

/-- The sum of squared deviations is minimised at the arithmetic mean. -/
lemma sum_sq_dev_mean_le (l : List ℚ) (hl : l ≠ []) (c : ℚ) :
    (l.map (fun v => (v - mean l) ^ 2)).sum ≤ (l.map (fun v => (v - c) ^ 2)).sum := by
  have hlen : l.length ≠ 0 := by simpa using (List.length_pos.mpr hl).ne'
  have hn : (0 : ℚ) < (l.length : ℚ) := by exact_mod_cast Nat.pos_of_ne_zero hlen
  rw [sum_sq_sub_expand l (mean l), sum_sq_sub_expand l c, mean]
  have key : 0 ≤ ((l.length : ℚ) * c - l.sum) ^ 2 / (l.length : ℚ) := by positivity
  have expand : (2 * c * l.sum - (l.length : ℚ) * c ^ 2)
      - (2 * (l.sum / (l.length : ℚ)) * l.sum
        - (l.length : ℚ) * (l.sum / (l.length : ℚ)) ^ 2)
      = -(((l.length : ℚ) * c - l.sum) ^ 2 / (l.length : ℚ)) := by
    field_simp
    ring
  linarith [key, expand]

/-- Evaluating the Option-valued weighted fold when every entry succeeds. -/
lemma foldl_weighted_sum {γ : Type} (E : γ → Option ℚ) (W : γ → ℚ) (e : γ → ℚ)
    (l : List γ) (h : ∀ p ∈ l, E p = some (e p)) (s0 : ℚ) :
    l.foldl (fun acc p =>
      match acc, E p with
      | some s, some ev => some (s + W p * ev)
      | _, _ => Option.none) (some s0)
      = some (s0 + (l.map (fun p => W p * e p)).sum) := by
  induction l generalizing s0 with
  | nil => simp
  | cons p rest ih =>
    have hp := h p (by simp)
    simp only [List.foldl_cons, hp, List.map_cons, List.sum_cons]
    rw [ih (fun q hq => h q (by simp [hq]))]
    rw [add_assoc]

/-- Law of total variance, list form: the value-probability-weighted average
of the per-subset class variances is at most the variance of the whole class
column. -/
lemma total_variance_bound (data : List Record) (attr class_attr : String)
    (hne : data ≠ []) :
    ((val_freqOf data attr).map (fun p =>
      ((p.2 : ℚ) / ((gainTotal data attr : ℕ) : ℚ))
        * variance ((data.filter (fun r => r.getD attr = p.1)).map
            (fun r => (r.getD class_attr).toQ)))).sum
      ≤ variance (data.map (fun r => (r.getD class_attr).toQ)) := by
  have hlen : data.length ≠ 0 := by simpa using (List.length_pos.mpr hne).ne'
  have hnQ : (0 : ℚ) < (data.length : ℚ) := by exact_mod_cast Nat.pos_of_ne_zero hlen
  have htot : ((gainTotal data attr : ℕ) : ℚ) = (data.length : ℚ) := by
    rw [gainTotal_eq_length]
  have step1 : ∀ p ∈ val_freqOf data attr,
      ((p.2 : ℚ) / ((gainTotal data attr : ℕ) : ℚ))
        * variance ((data.filter (fun r => r.getD attr = p.1)).map
            (fun r => (r.getD class_attr).toQ))
        ≤ (1 / (data.length : ℚ))
          * (((data.filter (fun r => r.getD attr = p.1)).map
              (fun r => ((r.getD class_attr).toQ
                - mean (data.map (fun x => (x.getD class_attr).toQ))) ^ 2)).sum) := by
    intro p hp
    obtain ⟨hplen, hpos⟩ := val_freqOf_count data attr hp
    have hsublen : ((data.filter (fun r => r.getD attr = p.1)).map
        (fun r => (r.getD class_attr).toQ)).length = p.2 := by
      simp [← hplen]
    have hsubne : (data.filter (fun r => r.getD attr = p.1)).map
        (fun r => (r.getD class_attr).toQ) ≠ [] := by
      intro h0
      rw [h0] at hsublen
      simp at hsublen
      omega
    have hp2 : (0 : ℚ) < (p.2 : ℚ) := by exact_mod_cast hpos
    rw [htot, variance, hsublen]
    have heq : ((p.2 : ℚ) / (data.length : ℚ))
        * ((((data.filter (fun r => r.getD attr = p.1)).map
            (fun r => (r.getD class_attr).toQ)).map
              (fun v => (v - mean ((data.filter (fun r => r.getD attr = p.1)).map
                (fun r => (r.getD class_attr).toQ))) ^ 2)).sum / (p.2 : ℚ))
        = (1 / (data.length : ℚ))
          * (((data.filter (fun r => r.getD attr = p.1)).map
              (fun r => (r.getD class_attr).toQ)).map
                (fun v => (v - mean ((data.filter (fun r => r.getD attr = p.1)).map
                  (fun r => (r.getD class_attr).toQ))) ^ 2)).sum := by
      field_simp
      ring
    rw [heq]
    have hb := sum_sq_dev_mean_le
      ((data.filter (fun r => r.getD attr = p.1)).map (fun r => (r.getD class_attr).toQ))
      hsubne (mean (data.map (fun x => (x.getD class_attr).toQ)))
    have hmm : (((data.filter (fun r => r.getD attr = p.1)).map
        (fun r => (r.getD class_attr).toQ)).map
          (fun v => (v - mean (data.map (fun x => (x.getD class_attr).toQ))) ^ 2)).sum
        = ((data.filter (fun r => r.getD attr = p.1)).map
            (fun r => ((r.getD class_attr).toQ
              - mean (data.map (fun x => (x.getD class_attr).toQ))) ^ 2)).sum := by
      rw [List.map_map]
      rfl
    rw [← hmm]
    have hpos1 : (0 : ℚ) ≤ 1 / (data.length : ℚ) := by positivity
    exact mul_le_mul_of_nonneg_left hb hpos1
  calc ((val_freqOf data attr).map (fun p =>
      ((p.2 : ℚ) / ((gainTotal data attr : ℕ) : ℚ))
        * variance ((data.filter (fun r => r.getD attr = p.1)).map
            (fun r => (r.getD class_attr).toQ)))).sum
      ≤ ((val_freqOf data attr).map (fun p =>
          (1 / (data.length : ℚ))
            * (((data.filter (fun r => r.getD attr = p.1)).map
                (fun r => ((r.getD class_attr).toQ
                  - mean (data.map (fun x => (x.getD class_attr).toQ))) ^ 2)).sum))).sum :=
        List.sum_le_sum step1
    _ = (1 / (data.length : ℚ))
        * ((val_freqOf data attr).map (fun p =>
            ((data.filter (fun r => r.getD attr = p.1)).map
              (fun r => ((r.getD class_attr).toQ
                - mean (data.map (fun x => (x.getD class_attr).toQ))) ^ 2)).sum)).sum := by
        rw [List.sum_map_mul_left]
    _ = (1 / (data.length : ℚ))
        * (((val_freqOf data attr).map Prod.fst).map (fun k =>
            ((data.filter (fun r => r.getD attr = k)).map
              (fun r => ((r.getD class_attr).toQ
                - mean (data.map (fun x => (x.getD class_attr).toQ))) ^ 2)).sum)).sum := by
        rw [List.map_map]
        rfl
    _ = (1 / (data.length : ℚ))
        * ((data.map (fun r => ((r.getD class_attr).toQ
            - mean (data.map (fun x => (x.getD class_attr).toQ))) ^ 2)).sum) := by
        rw [sum_partition (fun r => r.getD attr)
          (fun r => ((r.getD class_attr).toQ
            - mean (data.map (fun x => (x.getD class_attr).toQ))) ^ 2)
          data ((val_freqOf data attr).map Prod.fst)
          (val_freqOf_nodup data attr)
          (fun r hr => (val_freqOf_mem_keys data attr _).mpr
            (List.mem_map_of_mem (fun x => x.getD attr) hr))]
    _ = variance (data.map (fun r => (r.getD class_attr).toQ)) := by
        rw [variance, List.map_map]
        have hl2 : (data.map (fun r => (r.getD class_attr).toQ)).length = data.length := by
          simp
        rw [hl2, one_div, inv_mul_eq_div]
        rfl

/-- Evaluating the subset-entropy loop of gain when every subset entropy is
defined. -/
lemma gainSubLoop_eval (data : List Record) (attr class_attr : String) (method : Metric)
    (e : Value × ℕ → ℚ)
    (h : ∀ p ∈ val_freqOf data attr,
      entropy_variance (data.filter (fun r => r.getD attr = p.1)) class_attr method
        = some (e p)) :
    gainSubLoop entropy_variance data attr class_attr method
      = some ((val_freqOf data attr).map
          (fun p => ((p.2 : ℚ) / ((gainTotal data attr : ℕ) : ℚ)) * e p)).sum := by
  rw [gainSubLoop]
  have aux : ∀ (l : List (Value × ℕ)),
      (∀ p ∈ l, entropy_variance (data.filter (fun r => r.getD attr = p.1)) class_attr method
        = some (e p)) → ∀ (s0 : ℚ),
      l.foldl (gainSubStep entropy_variance data attr class_attr method) (some s0)
        = some (s0 + (l.map
            (fun p => ((p.2 : ℚ) / ((gainTotal data attr : ℕ) : ℚ)) * e p)).sum) := by
    intro l
    induction l with
    | nil => intro _ s0; simp
    | cons p rest ih =>
      intro hl s0
      have hp := hl p (by simp)
      simp only [List.foldl_cons, gainSubStep, hp, List.map_cons, List.sum_cons]
      rw [ih (fun q hq => hl q (by simp [hq])), add_assoc]
  rw [aux (val_freqOf data attr) h 0]
  simp

/-- C2 (amended): for the variance metrics the batch information gain is
non-negative by the law of total variance: whenever gain_variance returns a
value it is at least 0.  For the entropy metrics the claim fails: see
node_gain_entropy2_negative. -/
theorem gain_variance_nonneg (data : List Record) (attr class_attr : String)
    (method : Metric) (g : ℚ)
    (h : gain_variance data attr class_attr method = some g) : 0 ≤ g := by
  simp only [gain_variance, gainG] at h
  cases hsub : gainSubLoop entropy_variance data attr class_attr method with
  | none => rw [hsub] at h; simp at h
  | some s =>
    cases hmain : entropy_variance data class_attr method with
    | none => rw [hsub, hmain] at h; simp at h
    | some mv =>
      rw [hsub, hmain] at h
      simp only [Option.some.injEq] at h
      subst h
      have hfacts : method.isContinuousMetric = true ∧ data ≠ [] ∧
          (data.all (fun r => (r.getD class_attr).isNumeric)) = true ∧
          mv = variance (data.map (fun r => (r.getD class_attr).toQ)) := by
        simp only [entropy_variance] at hmain
        split_ifs at hmain with h1 h2 h3
        exact ⟨h1, fun h0 => absurd (by simp [h0] : data.isEmpty = true) h2, h3,
          (Option.some_inj.mp hmain).symm⟩
      obtain ⟨hC, hE, hNum, rfl⟩ := hfacts
      have hEsub : ∀ p ∈ val_freqOf data attr,
          entropy_variance (data.filter (fun r => r.getD attr = p.1)) class_attr method
            = some (variance ((data.filter (fun r => r.getD attr = p.1)).map
                (fun r => (r.getD class_attr).toQ))) := by
        intro p hp
        obtain ⟨hplen, hpos⟩ := val_freqOf_count data attr hp
        have hsne : (data.filter (fun r => r.getD attr = p.1)).isEmpty = false := by
          rw [List.isEmpty_eq_false]
          intro h0
          rw [h0] at hplen
          simp at hplen
          omega
        have hall : ((data.filter (fun r => r.getD attr = p.1)).all
            (fun r => (r.getD class_attr).isNumeric)) = true := by
          rw [List.all_eq_true] at hNum ⊢
          intro r hr
          exact hNum r (List.mem_of_mem_filter hr)
        simp [entropy_variance, hC, hsne, hall]
      have hs := gainSubLoop_eval data attr class_attr method _ hEsub
      rw [hsub] at hs
      simp only [Option.some.injEq] at hs
      rw [hs]
      have := total_variance_bound data attr class_attr hE
      linarith

/-- Witness for C2 (amended) on a two-record regression dataset: the
variance1 gain of attribute a evaluates to 1/4, and the theorem yields its
non-negativity. -/
theorem gain_variance_nonneg_witness :
    gain_variance [[("a", Value.int 1), ("cls", Value.num 0)],
        [("a", Value.int 2), ("cls", Value.num 1)]] "a" "cls" .variance1
      = some (1 / 4 : ℚ) ∧ (0 : ℚ) ≤ 1 / 4 := by
  have hval : gain_variance [[("a", Value.int 1), ("cls", Value.num 0)],
      [("a", Value.int 2), ("cls", Value.num 1)]] "a" "cls" .variance1
      = some (1 / 4 : ℚ) := by
    norm_num +decide [gain_variance, gainG, gainSubLoop, gainSubStep, gainTotal, val_freqOf,
      bump, entropy_variance, variance, mean, Value.toQ, Value.isNumeric, Record.getD,
      Record.get?, Metric.isContinuousMetric, List.filter]
  exact ⟨hval, gain_variance_nonneg _ _ _ _ _ hval⟩

/-! ## Claim C6: the ready_to_split condition -/

/-- C6 (amended): when the leaf threshold and the relevant class statistic
are both defined, ready_to_split is exactly auto_grow and unsplit and
n at least splitting_n and quality below threshold (best_prob < t for a
discrete class, t < variance for a continuous one).  When either side of the
quality comparison is None the source skips the quality check entirely, so
the equivalence as originally stated fails there (see
ready_to_split_none_threshold). -/
theorem ready_to_split_iff (cfg : Config) (nd : Node) (t : ℚ)
    (ht : cfg.leaf_threshold = some t) :
    (cfg.is_continuous_class = true →
      ∀ v, nd.class_cdist.variance = some v →
        (nd.ready_to_split cfg = true ↔
          cfg.auto_grow = true ∧ nd.attr_name = Option.none
            ∧ cfg.splitting_n ≤ nd.n ∧ t < v)) ∧
    (cfg.is_continuous_class = false →
      ∀ bp, nd.class_ddist.best_prob = some bp →
        (nd.ready_to_split cfg = true ↔
          cfg.auto_grow = true ∧ nd.attr_name = Option.none
            ∧ cfg.splitting_n ≤ nd.n ∧ bp < t)) := by
  constructor
  · intro hcon v hv
    simp only [Node.ready_to_split, hcon, hv, ht, if_true]
    by_cases h : v ≤ t
    · rw [if_pos h]
      simp only [Bool.false_eq_true, false_iff]
      rintro ⟨-, -, -, hlt⟩
      exact absurd hlt (not_lt.mpr h)
    · rw [if_neg h]
      simp [Bool.and_eq_true, Option.isNone_iff_eq_none, decide_eq_true_eq, not_le.mp h]
      tauto
  · intro hcon bp hbp
    simp only [Node.ready_to_split, hcon, hbp, ht, Bool.false_eq_true, if_false]
    by_cases h : t ≤ bp
    · rw [if_pos h]
      simp only [Bool.false_eq_true, false_iff]
      rintro ⟨-, -, -, hlt⟩
      exact absurd hlt (not_lt.mpr h)
    · rw [if_neg h]
      simp [Bool.and_eq_true, Option.isNone_iff_eq_none, decide_eq_true_eq, not_le.mp h]
      tauto

/-- A regression-tree configuration with auto_grow on, splitting_n 1 and no
leaf threshold (leaf_threshold=None is an accepted option value). -/
def cfgNoThreshold : Config :=
  ⟨true, .variance1, 1, Option.none, true, "cls", [],
    [("a", ATTR_TYPE_DISCRETE), ("cls", ATTR_TYPE_CONTINUOUS)]⟩

/-- An unsplit node holding one sample with class variance 0. -/
def nodeOneSample : Node :=
  .mk 1 Option.none [] [] [] DDist.empty [] ⟨1, 1, 0⟩ []

/-- Counterexample to C6 as stated: with leaf_threshold None the node is
ready to split even though its class variance (0, defined) is not greater
than any threshold, because there is no threshold; the quality condition of
the claim cannot even be expressed, yet ready_to_split is true. -/
theorem ready_to_split_none_threshold :
    nodeOneSample.ready_to_split cfgNoThreshold = true ∧
    cfgNoThreshold.leaf_threshold = Option.none ∧
    nodeOneSample.class_cdist.variance = some 0 := by
  refine ⟨?_, rfl, ?_⟩
  · norm_num [Node.ready_to_split, cfgNoThreshold, nodeOneSample, CDist.variance,
      Node.class_cdist, Node.attr_name, Node.n]
  · norm_num [nodeOneSample, CDist.variance, Node.class_cdist]

/-- Witness for C6 (amended): a discrete-class node with best_prob 1/2 under
threshold 1 and enough samples is ready to split. -/
theorem ready_to_split_iff_witness :
    (Node.mk 2 Option.none [] [] [] (DDist.mk [(Value.str "a", 1), (Value.str "b", 1)] 2)
      [] CDist.empty []).ready_to_split
        ⟨false, .entropy1, 1, some 1, true, "cls", [], []⟩ = true := by
  refine ((ready_to_split_iff ⟨false, .entropy1, 1, some 1, true, "cls", [], []⟩
    (Node.mk 2 Option.none [] [] [] (DDist.mk [(Value.str "a", 1), (Value.str "b", 1)] 2)
      [] CDist.empty []) 1 rfl).2 rfl (1 / 2) ?_).mpr ⟨rfl, rfl, by norm_num [Node.n], by norm_num⟩
  norm_num [DDist.best_prob, Node.class_ddist]

/-! ## Claim C7: the missing-value policy -/

lemma nearestFoldAux (q : ℚ) :
    ∀ (l : List Value) (b : Value),
      ∃ r, l.foldl (nearestStep q) (some b) = some r
        ∧ (r = b ∨ r ∈ l)
        ∧ (|r.toQ - q| < |b.toQ - q| ∨ (|r.toQ - q| = |b.toQ - q| ∧ r.toQ ≤ b.toQ))
        ∧ ∀ u ∈ l, |r.toQ - q| < |u.toQ - q|
            ∨ (|r.toQ - q| = |u.toQ - q| ∧ r.toQ ≤ u.toQ) := by
  intro l
  induction l with
  | nil =>
    intro b
    exact ⟨b, rfl, Or.inl rfl, Or.inr ⟨rfl, le_refl _⟩, by simp⟩
  | cons v rest ih =>
    intro b
    by_cases h : |v.toQ - q| < |b.toQ - q| ∨ (|v.toQ - q| = |b.toQ - q| ∧ v.toQ < b.toQ)
    · obtain ⟨r, hr, hmem, hrb, hall⟩ := ih v
      refine ⟨r, ?_, ?_, ?_, ?_⟩
      · simpa [nearestStep, h] using hr
      · rcases hmem with rfl | hm
        · exact Or.inr (by simp)
        · exact Or.inr (by simp [hm])
      · rcases hrb with h1 | ⟨h1, h2⟩ <;> rcases h with h3 | ⟨h3, h4⟩
        · exact Or.inl (lt_trans h1 h3)
        · exact Or.inl (h3 ▸ h1)
        · exact Or.inl (h1 ▸ h3)
        · exact Or.inr ⟨h1.trans h3, le_trans h2 (le_of_lt h4)⟩
      · intro u hu
        rcases List.mem_cons.mp hu with rfl | hu'
        · exact hrb
        · exact hall u hu'
    · obtain ⟨r, hr, hmem, hrb, hall⟩ := ih b
      have h' := h
      push_neg at h'
      refine ⟨r, ?_, ?_, hrb, ?_⟩
      · simpa [nearestStep, h] using hr
      · rcases hmem with rfl | hm
        · exact Or.inl rfl
        · exact Or.inr (by simp [hm])
      · intro u hu
        rcases List.mem_cons.mp hu with rfl | hu'
        · rcases hrb with h1 | ⟨h1, h2⟩
          · rcases lt_or_eq_of_le h'.1 with h3 | h3
            · exact Or.inl (lt_trans h1 h3)
            · exact Or.inl (h3 ▸ h1)
          · rcases lt_or_eq_of_le h'.1 with h3 | h3
            · exact Or.inl (h1 ▸ h3)
            · exact Or.inr ⟨h1.trans h3, le_trans h2 (h'.2 h3.symm)⟩
        · exact hall u hu'

/-- The nearest-value scan returns a member of the value list that minimizes
the distance to the query, breaking distance ties by the numerically smaller
value. -/
lemma nearestFold_spec (vals : List Value) (q : ℚ) (hne : vals ≠ []) :
    nearestFold vals q ∈ vals ∧
    ∀ u ∈ vals, |(nearestFold vals q).toQ - q| < |u.toQ - q|
      ∨ (|(nearestFold vals q).toQ - q| = |u.toQ - q|
          ∧ (nearestFold vals q).toQ ≤ u.toQ) := by
  cases vals with
  | nil => exact absurd rfl hne
  | cons v rest =>
    obtain ⟨r, hr, hmem, hrb, hall⟩ := nearestFoldAux q rest v
    have hfold : nearestFold (v :: rest) q = r := by
      simp [nearestFold, nearestStep, hr]
    rw [hfold]
    constructor
    · rcases hmem with rfl | hm
      · exact List.mem_cons_self _ _
      · exact List.mem_cons_of_mem _ hm
    · intro u hu
      rcases List.mem_cons.mp hu with rfl | hu'
      · exact hrb
      · exact hall u hu'

/-- C7 (amended): at a split node whose record value v for the split
attribute is not among the known values: with no policy installed for the
attribute the lookup is a hard assert failure; the use-nearest policy is
rejected (assert failure) for attribute types other than discrete or
continuous; for discrete or continuous types it returns the nearest scan
result, which is a known value minimizing |known - v|, ties broken by the
numerically smaller value (not by encounter order, see
nearest_tie_prefers_smaller_value). -/
theorem missing_value_policy_spec (cfg : Config) (nd : Node) (r : Record)
    (a : String) (v : Value) (ha : nd.attr_name = some a) (hv : r.get? a = some v)
    (hunk : v ∉ nd.get_values a) :
    (alook cfg.missing_value_policy a = Option.none →
      nd.get_attribute_value_for_node cfg r = .error .assertError) ∧
    (∀ t, alook cfg.missing_value_policy a = some USE_NEAREST →
      alook cfg.header_types a = some t →
      ((t ≠ ATTR_TYPE_DISCRETE ∧ t ≠ ATTR_TYPE_CONTINUOUS →
        nd.get_attribute_value_for_node cfg r = .error .assertError) ∧
      ((t = ATTR_TYPE_DISCRETE ∨ t = ATTR_TYPE_CONTINUOUS) →
        nd.get_attribute_value_for_node cfg r
            = .ok (nearestFold (nd.get_values a) v.toQ) ∧
        (nd.get_values a ≠ [] →
          nearestFold (nd.get_values a) v.toQ ∈ nd.get_values a ∧
          ∀ u ∈ nd.get_values a,
            |(nearestFold (nd.get_values a) v.toQ).toQ - v.toQ| < |u.toQ - v.toQ|
              ∨ (|(nearestFold (nd.get_values a) v.toQ).toQ - v.toQ| = |u.toQ - v.toQ|
                  ∧ (nearestFold (nd.get_values a) v.toQ).toQ ≤ u.toQ))))) := by
  constructor
  · intro hpol
    simp [Node.get_attribute_value_for_node, ha, hv, hunk, hpol]
  · intro t hpol ht
    have hpne : USE_NEAREST ≠ "" := by decide
    constructor
    · intro ⟨h1, h2⟩
      simp [Node.get_attribute_value_for_node, ha, hv, hunk, hpol, ht, hpne, USE_NEAREST,
        h1, h2]
    · intro hdc
      constructor
      · rcases hdc with rfl | rfl <;>
          simp [Node.get_attribute_value_for_node, ha, hv, hunk, hpol, ht, hpne, USE_NEAREST,
            ATTR_TYPE_DISCRETE, ATTR_TYPE_CONTINUOUS]
      · intro hne
        exact nearestFold_spec (nd.get_values a) v.toQ hne

/-- Modelled from the spec: the claimed tie-break rule of C7, "choose the
known value minimizing |v_known - v_query|, ties broken by the first value
encountered": scan the values in encounter order and replace the candidate
only on a strictly smaller distance.  Stated for comparison with the
nearest-value scan of the source. -/
def chooseNearestFirstEncountered (vals : List Value) (q : ℚ) : Value :=
  (vals.foldl (fun best v =>
    match best with
    | Option.none => some v
    | some b => if |v.toQ - q| < |b.toQ - q| then some v else some b) Option.none).getD .none

/-- A node split on attribute a that has seen the values 3 and then 1. -/
def nodeTie : Node :=
  .mk 2 (some "a") [("a", [(Value.int 3, 1), (Value.int 1, 1)])] [("a", 2)] []
    DDist.empty [] CDist.empty []

/-- A configuration with the use-nearest policy installed for attribute a, a
discrete attribute in the schema. -/
def cfgTie : Config :=
  ⟨true, .variance1, 100, some 0, false, "cls", [("a", USE_NEAREST)],
    [("a", ATTR_TYPE_DISCRETE), ("cls", ATTR_TYPE_CONTINUOUS)]⟩

/-- Counterexample to the tie-break of C7 as stated: querying a=2 against the
known values in encounter order [3, 1] ties at distance 1 on both sides; the
code returns 1, the numerically smaller value, while the first value
encountered is 3 (chooseNearestFirstEncountered states the claimed rule). -/
theorem nearest_tie_prefers_smaller_value :
    nodeTie.get_attribute_value_for_node cfgTie [("a", Value.int 2), ("cls", Value.num 0)]
      = .ok (Value.int 1) ∧
    nodeTie.get_values "a" = [Value.int 3, Value.int 1] ∧
    chooseNearestFirstEncountered (nodeTie.get_values "a") ((Value.int 2).toQ)
      = Value.int 3 ∧
    Value.int 1 ≠ Value.int 3 := by
  have hvals : nodeTie.get_values "a" = [Value.int 3, Value.int 1] := by
    norm_num +decide [Node.get_values, nodeTie, Node.avCountsAt, Node.attr_value_cdist,
      Node.attr_value_counts, Node.branches, alookD, alook, uniqueList]
  refine ⟨?_, hvals, ?_, by decide⟩
  · norm_num +decide [Node.get_attribute_value_for_node, nodeTie, cfgTie, Node.attr_name,
      Record.get?, hvals, alook, USE_NEAREST, ATTR_TYPE_DISCRETE, ATTR_TYPE_CONTINUOUS,
      nearestFold, nearestStep, Value.toQ, Node.get_values, Node.avCountsAt,
      Node.attr_value_cdist, Node.attr_value_counts, Node.branches, alookD, uniqueList]
  · rw [hvals]
    norm_num +decide [chooseNearestFirstEncountered, Value.toQ]

/-- Witness for C7 (amended): at the concrete split node, querying an unseen
value under the use-nearest policy returns the nearest scan result. -/
theorem missing_value_policy_spec_witness :
    nodeTie.get_attribute_value_for_node cfgTie
      [("a", Value.int 0), ("cls", Value.num 0)]
      = .ok (nearestFold (nodeTie.get_values "a") ((Value.int 0).toQ)) :=
  (((missing_value_policy_spec cfgTie nodeTie
      [("a", Value.int 0), ("cls", Value.num 0)] "a" (Value.int 0) rfl rfl
      (by decide)).2 ATTR_TYPE_DISCRETE rfl rfl).2 (Or.inl rfl)).1

/-! ## Claim C5: NotReadyToPredict behaviour of predict -/

lemma ready_to_predict_iff (nd : Node) : nd.ready_to_predict = true ↔ nd.n ≠ 0 := by
  simp only [Node.ready_to_predict, decide_eq_true_eq]
  omega

/-- The attribute-value lookup never signals NodeNotReadyToPredict or the
recursion limit: its failures are KeyError, assert failures, or the
unknown-policy exception. -/
lemma get_attribute_value_error_kinds (cfg : Config) (nd : Node) (r : Record) (e : PErr)
    (he : nd.get_attribute_value_for_node cfg r = .error e) :
    e ≠ .notReady ∧ e ≠ .stackOverflow := by
  rw [Node.get_attribute_value_for_node] at he
  cases han : nd.attr_name with
  | none => rw [han] at he; cases he
  | some a =>
    rw [han] at he
    simp only [] at he
    cases hv : r.get? a with
    | none => rw [hv] at he; simp only [] at he; cases he; decide
    | some v =>
      rw [hv] at he
      simp only [] at he
      by_cases hm : v ∈ nd.get_values a
      · rw [if_pos hm] at he; cases he
      · rw [if_neg hm] at he
        repeat' split at he
        all_goals (cases he)
        all_goals decide

/-- A known attribute value resolves to itself. -/
lemma get_attribute_value_known (cfg : Config) (nd : Node) (r : Record) (a : String)
    (v : Value) (ha : nd.attr_name = some a) (hv : r.get? a = some v)
    (hm : v ∈ nd.get_values a) :
    nd.get_attribute_value_for_node cfg r = .ok v := by
  simp [Node.get_attribute_value_for_node, ha, hv, hm]

/-- C5: Node.predict signals NodeNotReadyToPredict exactly when the node has
n = 0 (given fuel for the top call), and a child NodeNotReadyToPredict is
caught exactly once at the split-descent point: a split node with a known
branch whose child has n = 0 answers with the fallback distribution built
from its own cached joint statistics instead of propagating the error. -/
theorem predict_notReady_iff (cfg : Config) (fuel : ℕ) (nd : Node) (r : Record)
    (hf : 1 ≤ fuel) :
    (Node.predict cfg fuel nd r = .error .notReady ↔ nd.n = 0) ∧
    (∀ a v child, 2 ≤ fuel → nd.n ≠ 0 → nd.attr_name = some a → r.get? a = some v →
      v ∈ nd.get_values a → alook nd.branches v = some child → child.n = 0 →
      cfg.is_continuous_class = false →
      Node.predict cfg fuel nd r = .ok (.ddist (nd.get_value_ddist a v))) := by
  obtain ⟨f, rfl⟩ : ∃ f, fuel = f + 1 := ⟨fuel - 1, by omega⟩
  constructor
  · constructor
    · intro h
      by_contra hn
      rw [Node.predict] at h
      rw [if_neg (by simp [ready_to_predict_iff, hn])] at h
      cases hg : nd.get_attribute_value_for_node cfg r with
      | error e =>
        rw [hg] at h
        simp only [] at h
        cases h
        exact absurd rfl (get_attribute_value_error_kinds cfg nd r _ hg).1
      | ok av =>
        rw [hg] at h
        simp only [] at h
        cases han : nd.attr_name with
        | none =>
          rw [han] at h
          simp only [] at h
          split at h <;> cases h
        | some a =>
          rw [han] at h
          simp only [] at h
          cases hb : alook nd.branches av with
          | none =>
            rw [hb] at h
            simp only [] at h
            split at h <;> cases h
          | some child =>
            rw [hb] at h
            simp only [] at h
            cases hc : Node.predict cfg f child r with
            | ok d => rw [hc] at h; simp only [] at h; cases h
            | error e =>
              rw [hc] at h
              cases e with
              | notReady => simp only [] at h; split at h <;> cases h
              | keyError => simp only [] at h; cases h
              | assertError => simp only [] at h; cases h
              | otherError => simp only [] at h; cases h
              | stackOverflow => simp only [] at h; cases h
    · intro hn
      rw [Node.predict, if_pos (by simp [Node.ready_to_predict, hn])]
  · intro a v child hf2 hn ha hv hm hb hcn hcon
    obtain ⟨f1, rfl⟩ : ∃ f1, f = f1 + 1 := ⟨f - 1, by omega⟩
    rw [Node.predict]
    rw [if_neg (by simp [ready_to_predict_iff, hn])]
    rw [get_attribute_value_known cfg nd r a v ha hv hm]
    simp only [] 
    rw [ha]
    simp only [] 
    rw [hb]
    simp only [] 
    have hchild : Node.predict cfg (f1 + 1) child r = .error .notReady := by
      rw [Node.predict, if_pos (by simp [Node.ready_to_predict, hcn])]
    rw [hchild]
    simp only [hcon, Bool.false_eq_true, if_false]

/-- A one-sample node split on a with a single child that is still empty. -/
def nodeC5 : Node :=
  .mk 1 (some "a") [("a", [(Value.int 1, 1)])] [("a", 1)]
    [("a", [(Value.int 1, [(Value.str "x", 1)])])]
    (DDist.mk [(Value.str "x", 1)] 1) [] CDist.empty [(Value.int 1, Node.empty)]

/-- A classification configuration with no online growth. -/
def cfgC5 : Config := ⟨false, .entropy1, 100, some 1, false, "cls", [], []⟩

/-- Witness for C5: an empty node raises NodeNotReadyToPredict, and a split
node over an empty child answers with its own joint-count fallback
distribution. -/
theorem predict_notReady_iff_witness :
    Node.predict cfgC5 2 Node.empty [("cls", Value.str "x")] = .error .notReady ∧
    Node.predict cfgC5 2 nodeC5 [("a", Value.int 1), ("cls", Value.str "x")]
      = .ok (.ddist (nodeC5.get_value_ddist "a" (Value.int 1))) :=
  ⟨(predict_notReady_iff cfgC5 2 Node.empty _ (by norm_num)).1.mpr rfl,
   (predict_notReady_iff cfgC5 2 nodeC5 _ (by norm_num)).2 "a" (Value.int 1) Node.empty
     (by norm_num) (by decide) rfl rfl (by decide) rfl rfl rfl⟩

/-! ## Claim C4: routing of updates at a split node -/

/-- A node that has already split never satisfies ready_to_split. -/
lemma ready_to_split_of_split (cfg : Config) (nd : Node) (a : String)
    (ha : nd.attr_name = some a) : nd.ready_to_split cfg = false := by
  have hn : nd.attr_name.isNone = false := by simp [ha]
  rw [Node.ready_to_split]
  simp only [hn, Bool.and_false, Bool.false_and]
  split
  · split
    · split <;> rfl
    · rfl
  · split
    · split <;> rfl
    · rfl

/-- One attribute-statistics step changes only the per-attribute maps. -/
lemma updateAttrStat_preserves (cfg : Config) (cv : Value) (nd : Node) (p : String × Value) :
    (nd.updateAttrStat cfg cv p).n = nd.n ∧
    (nd.updateAttrStat cfg cv p).attr_name = nd.attr_name ∧
    (nd.updateAttrStat cfg cv p).class_ddist = nd.class_ddist ∧
    (nd.updateAttrStat cfg cv p).class_cdist = nd.class_cdist ∧
    (nd.updateAttrStat cfg cv p).branches = nd.branches := by
  rw [Node.updateAttrStat]
  split
  · exact ⟨rfl, rfl, rfl, rfl, rfl⟩
  · exact ⟨rfl, rfl, rfl, rfl, rfl⟩

lemma foldl_updateAttrStat_preserves (cfg : Config) (cv : Value)
    (l : List (String × Value)) : ∀ nd : Node,
    ((l.foldl (fun acc p => acc.updateAttrStat cfg cv p) nd).n = nd.n ∧
     (l.foldl (fun acc p => acc.updateAttrStat cfg cv p) nd).attr_name = nd.attr_name ∧
     (l.foldl (fun acc p => acc.updateAttrStat cfg cv p) nd).class_ddist = nd.class_ddist ∧
     (l.foldl (fun acc p => acc.updateAttrStat cfg cv p) nd).class_cdist = nd.class_cdist ∧
     (l.foldl (fun acc p => acc.updateAttrStat cfg cv p) nd).branches = nd.branches) := by
  induction l with
  | nil => intro nd; exact ⟨rfl, rfl, rfl, rfl, rfl⟩
  | cons p rest ih =>
    intro nd
    simp only [List.foldl_cons]
    obtain ⟨h1, h2, h3, h4, h5⟩ := ih (nd.updateAttrStat cfg cv p)
    obtain ⟨g1, g2, g3, g4, g5⟩ := updateAttrStat_preserves cfg cv nd p
    exact ⟨h1.trans g1, h2.trans g2, h3.trans g3, h4.trans g4, h5.trans g5⟩

/-- The statistics phase increments n, updates the marginal class
distribution of the matching kind, and leaves attr_name and branches
unchanged. -/
lemma updateStats_fields (cfg : Config) (nd nd1 : Node) (r : Record)
    (h : nd.updateStats cfg r = some nd1) :
    nd1.attr_name = nd.attr_name ∧ nd1.branches = nd.branches ∧ nd1.n = nd.n + 1 ∧
    ∃ cv, r.get? cfg.class_attr = some cv ∧
      nd1.class_ddist = (if cfg.is_continuous_class then nd.class_ddist
        else nd.class_ddist.add cv) ∧
      nd1.class_cdist = (if cfg.is_continuous_class then nd.class_cdist.iadd cv.toQ
        else nd.class_cdist) := by
  rw [Node.updateStats] at h
  cases hcv : r.get? cfg.class_attr with
  | none => rw [hcv] at h; cases h
  | some cv =>
    rw [hcv] at h
    simp only [Option.some_inj] at h
    subst h
    obtain ⟨h1, h2, h3, h4, h5⟩ := foldl_updateAttrStat_preserves cfg cv r _
    refine ⟨h2.trans rfl, h5.trans rfl, by rw [h1]; rfl, cv, rfl, by rw [h3]; rfl,
      by rw [h4]; rfl⟩

/-- C4 (amended): an update at an already-split node removes the split
attribute entry from the record and forwards the shortened record to the
child keyed by the record value; when that value has no child the update
fails with a KeyError (modelled none) instead of creating a new child. -/
theorem update_forwards_erased_record (cfg : Config) (f : ℕ) (nd nd1 : Node)
    (r : Record) (a : String) (v : Value)
    (ha : nd.attr_name = some a)
    (hstats : nd.updateStats cfg r = some nd1)
    (hv : r.get? a = some v) :
    Node.update cfg (f + 1) nd r
      = match alook nd1.branches v with
        | Option.none => Option.none
        | some child => (Node.update cfg f child (r.eraseKey a)).map
            (fun p => (nd1.setBranch v p.1, p.2)) := by
  obtain ⟨hattr, -, -, -⟩ := updateStats_fields cfg nd nd1 r hstats
  have ha1 : nd1.attr_name = some a := hattr.trans ha
  rw [Node.update, hstats]
  simp only []
  rw [Node.splitIfReady, if_neg (by simp [ready_to_split_of_split cfg nd1 a ha1])]
  simp only []
  rw [ha1]
  simp only []
  rw [hv]
  simp only []
  cases hbk : alook nd1.branches v with
  | none => simp only [hbk]
  | some child =>
    simp only [hbk]
    cases hu : Node.update cfg f child (r.eraseKey a) with
    | none => simp [hu]
    | some p => simp [hu]

/-- A regression configuration that splits immediately: auto_grow,
splitting_n 1, no leaf threshold. -/
def cfgC4 : Config :=
  ⟨true, .variance1, 1, Option.none, true, "cls",
    [], [("a", ATTR_TYPE_DISCRETE), ("cls", ATTR_TYPE_CONTINUOUS)]⟩

/-- The node reached from an empty node by one update with a=1, cls=1/2
under cfgC4: it has split on a with the single child for value 1. -/
def nodeC4a : Node :=
  .mk 1 (some "a") [("a", [(Value.int 1, 1)])] [("a", 1)] [] DDist.empty
    [("a", [(Value.int 1, ⟨1/2, 1, 0⟩)])] ⟨1/2, 1, 0⟩
    [(Value.int 1, .mk 1 Option.none [] [] [] DDist.empty [] ⟨1/2, 1, 0⟩ [])]

/-- Counterexample to C4 as stated: the first update makes the node split on
a having seen only the value 1; a second update carrying the new value a=2
fails with a KeyError (none) instead of creating a child for 2. -/
theorem update_unseen_split_value_fails :
    Node.update cfgC4 3 Node.empty [("a", Value.int 1), ("cls", Value.num (1 / 2))]
      = some (nodeC4a, [("cls", Value.num (1 / 2))]) ∧
    Node.update cfgC4 3 nodeC4a [("a", Value.int 2), ("cls", Value.num (3 / 4))]
      = Option.none := by
  constructor
  · norm_num +decide [Node.update, Node.updateStats, Node.updateAttrStat, Node.splitIfReady,
      Node.ready_to_split, Node.get_best_splitting_attr, bestAttrBy, Node.get_gain_con,
      Node.get_entropy_con, Node.get_value_prob, Node.attributes, Node.avCountsAt,
      Node.avCdistAt, CDist.variance, CDist.iadd, CDist.mean, CDist.empty, DDist.empty,
      aupd, alook, alookD, bump, lookupCount, Record.get?, Record.eraseKey, Value.toQ,
      Node.empty, Node.setBranch, cfgC4, nodeC4a, Node.n, Node.attr_name,
      Node.attr_value_counts, Node.attr_value_count_totals, Node.attr_class_value_counts,
      Node.class_ddist, Node.attr_value_cdist, Node.class_cdist, Node.branches]
  · norm_num +decide [Node.update, Node.updateStats, Node.updateAttrStat, Node.splitIfReady,
      Node.ready_to_split, Node.get_best_splitting_attr, bestAttrBy, Node.get_gain_con,
      Node.get_entropy_con, Node.get_value_prob, Node.attributes, Node.avCountsAt,
      Node.avCdistAt, CDist.variance, CDist.iadd, CDist.mean, CDist.empty, DDist.empty,
      aupd, alook, alookD, bump, lookupCount, Record.get?, Record.eraseKey, Value.toQ,
      Node.empty, Node.setBranch, cfgC4, nodeC4a, Node.n, Node.attr_name,
      Node.attr_value_counts, Node.attr_value_count_totals, Node.attr_class_value_counts,
      Node.class_ddist, Node.attr_value_cdist, Node.class_cdist, Node.branches]

/-- The statistics-phase result of updating nodeC4a with a=1, cls=3/4. -/
def nodeC4b : Node :=
  .mk 2 (some "a") [("a", [(Value.int 1, 2)])] [("a", 2)] [] DDist.empty
    [("a", [(Value.int 1, ⟨5/4, 2, 1/32⟩)])] ⟨5/4, 2, 1/32⟩
    [(Value.int 1, .mk 1 Option.none [] [] [] DDist.empty [] ⟨1/2, 1, 0⟩ [])]

/-- Witness for C4 (amended) at the concrete split node: the update removes
the a entry and forwards to the child for value 1. -/
theorem update_forwards_erased_record_witness :
    nodeC4a.updateStats cfgC4 [("a", Value.int 1), ("cls", Value.num (3 / 4))]
      = some nodeC4b ∧
    Node.update cfgC4 2 nodeC4a [("a", Value.int 1), ("cls", Value.num (3 / 4))]
      = match alook nodeC4b.branches (Value.int 1) with
        | Option.none => Option.none
        | some child => (Node.update cfgC4 1 child
            (Record.eraseKey [("a", Value.int 1), ("cls", Value.num (3 / 4))] "a")).map
            (fun p => (nodeC4b.setBranch (Value.int 1) p.1, p.2)) := by
  have hstats : nodeC4a.updateStats cfgC4 [("a", Value.int 1), ("cls", Value.num (3 / 4))]
      = some nodeC4b := by
    norm_num +decide [Node.updateStats, Node.updateAttrStat, nodeC4a, nodeC4b, cfgC4,
      Record.get?, CDist.iadd, CDist.mean, aupd, bump, alook, alookD, Value.toQ,
      Node.n, Node.attr_name, Node.attr_value_counts, Node.attr_value_count_totals,
      Node.attr_class_value_counts, Node.class_ddist, Node.attr_value_cdist,
      Node.class_cdist, Node.branches]
  exact ⟨hstats, update_forwards_erased_record cfgC4 1 nodeC4a nodeC4b _ "a" (Value.int 1)
    rfl hstats rfl⟩

/-! ## Claim C3: the class-count invariant -/

/-- The invariant of C3: n equals the size of the marginal class
distribution of the kind matching the class type. -/
def Node.classInv (cfg : Config) (nd : Node) : Prop :=
  if cfg.is_continuous_class then nd.class_cdist.count = nd.n
  else nd.class_ddist.total = nd.n

/-- Reachability among the nodes of a tree: a node, or recursively a node of
one of its branches. -/
inductive Subnode : Node → Node → Prop
  | refl (nd : Node) : Subnode nd nd
  | branch {m c nd : Node} (v : Value) (hm : (v, c) ∈ nd.branches) (h : Subnode m c) :
      Subnode m nd

lemma alook_mem {α β : Type} [DecidableEq α] {m : List (α × β)} {k : α} {b : β}
    (h : alook m k = some b) : (k, b) ∈ m := by
  induction m with
  | nil => cases h
  | cons q rest ih =>
    rcases q with ⟨a, x⟩
    by_cases hk : a = k
    · subst hk
      simp [alook] at h
      subst h
      exact List.mem_cons_self _ _
    · simp only [alook, if_neg hk] at h
      exact List.mem_cons_of_mem _ (ih h)

lemma mem_aupd {α β : Type} [DecidableEq α] (m : List (α × β)) (k : α) (d c : β)
    (p : α × β) (hp : p ∈ aupd m k d (fun _ => c)) : p ∈ m ∨ p.2 = c := by
  induction m with
  | nil => simp [aupd] at hp; simp [hp]
  | cons q rest ih =>
    rcases q with ⟨a, x⟩
    by_cases hk : a = k
    · subst hk
      simp only [aupd, if_pos rfl] at hp
      rcases List.mem_cons.mp hp with rfl | hp'
      · exact Or.inr rfl
      · exact Or.inl (List.mem_cons_of_mem _ hp')
    · simp only [aupd, if_neg hk] at hp
      rcases List.mem_cons.mp hp with rfl | hp'
      · exact Or.inl (List.mem_cons_self _ _)
      · rcases ih hp' with h | h
        · exact Or.inl (List.mem_cons_of_mem _ h)
        · exact Or.inr h

lemma mem_foldl_aupd (l : List (Value × ℕ)) (c : Node) :
    ∀ (m0 : List (Value × Node)) (p : Value × Node),
      p ∈ l.foldl (fun bs q => aupd bs q.1 Node.empty (fun _ => c)) m0 →
      p ∈ m0 ∨ p.2 = c := by
  induction l with
  | nil => intro m0 p hp; exact Or.inl hp
  | cons q rest ih =>
    intro m0 p hp
    simp only [List.foldl_cons] at hp
    rcases ih _ p hp with h | h
    · exact mem_aupd m0 q.1 Node.empty c p h
    · exact Or.inr h

/-- The split phase preserves n and the class distributions, and every branch
of the result is an old branch or a fresh empty child. -/
lemma splitIfReady_fields (cfg : Config) (nd nd1 : Node)
    (h : nd.splitIfReady cfg = some nd1) :
    nd1.n = nd.n ∧ nd1.class_ddist = nd.class_ddist ∧ nd1.class_cdist = nd.class_cdist ∧
    (∀ p ∈ nd1.branches, p ∈ nd.branches ∨ p.2 = Node.empty) := by
  rw [Node.splitIfReady] at h
  split at h
  · cases hbest : nd.get_best_splitting_attr cfg with
    | none => rw [hbest] at h; cases h
    | some best =>
      rw [hbest] at h
      simp only [Option.some_inj] at h
      subst h
      refine ⟨rfl, rfl, rfl, ?_⟩
      cases best with
      | none => intro p hp; exact Or.inl hp
      | some a =>
        intro p hp
        exact mem_foldl_aupd _ Node.empty _ p hp
  · simp only [Option.some_inj] at h
    subst h
    exact ⟨rfl, rfl, rfl, fun p hp => Or.inl hp⟩

/-- C3 (amended): the class-count invariant is preserved by every successful
online Node.update, at the updated node and at every node reachable below
it.  It fails for nodes built by the batch builder, which never touches the
class distributions: see batch_node_breaks_class_count_invariant. -/
theorem update_preserves_class_count_invariant (cfg : Config) :
    ∀ (fuel : ℕ) (nd : Node) (r : Record) (nd1 : Node) (r1 : Record),
      (∀ m, Subnode m nd → m.classInv cfg) →
      Node.update cfg fuel nd r = some (nd1, r1) →
      ∀ m, Subnode m nd1 → m.classInv cfg := by
  intro fuel
  induction fuel with
  | zero => intro nd r nd1 r1 _ h; cases h
  | succ f ih =>
    intro nd r nd1 r1 hinv hupd m hm
    rw [Node.update] at hupd
    cases hstats : nd.updateStats cfg r with
    | none => rw [hstats] at hupd; cases hupd
    | some nda =>
      rw [hstats] at hupd
      simp only [] at hupd
      obtain ⟨hattr, hbr, hn, cv, hcv, hdd, hcd⟩ := updateStats_fields cfg nd nda r hstats
      have hinv_a : ∀ m, Subnode m nda → m.classInv cfg := by
        intro m hm
        cases hm with
        | refl =>
          have h0 := hinv nd (Subnode.refl nd)
          rw [Node.classInv] at h0 ⊢
          cases hcc : cfg.is_continuous_class with
          | true =>
            simp only [hcc, if_true] at h0 ⊢
            rw [hcd, hn]
            simp only [hcc, if_true, CDist.iadd, CDist.count]
            simp only [CDist.count] at h0
            omega
          | false =>
            simp only [hcc, Bool.false_eq_true, if_false] at h0 ⊢
            rw [hdd, hn]
            simp only [hcc, Bool.false_eq_true, if_false, DDist.add]
            omega
        | branch v hmem hsub =>
          rw [hbr] at hmem
          exact hinv m (Subnode.branch v hmem hsub)
      cases hsplit : nda.splitIfReady cfg with
      | none => rw [hsplit] at hupd; cases hupd
      | some ndb =>
        rw [hsplit] at hupd
        simp only [] at hupd
        obtain ⟨hbn, hbdd, hbcd, hbbr⟩ := splitIfReady_fields cfg nda ndb hsplit
        have hinv_b : ∀ m, Subnode m ndb → m.classInv cfg := by
          intro m hm
          cases hm with
          | refl =>
            have h0 := hinv_a nda (Subnode.refl nda)
            rw [Node.classInv] at h0 ⊢
            rw [hbn, hbdd, hbcd]
            exact h0
          | branch v hmem hsub =>
            rename_i c
            rcases hbbr _ hmem with hold | hnew
            · exact hinv_a m (Subnode.branch v hold hsub)
            · have hnew2 : c = Node.empty := hnew
              rw [hnew2] at hsub
              cases hsub with
              | refl => simp [Node.classInv, Node.empty, DDist.empty, CDist.empty,
                  DDist.total, CDist.count, Node.n, Node.class_ddist, Node.class_cdist]
              | branch v2 hmem2 hsub2 =>
                simp [Node.empty, Node.branches] at hmem2
        cases hban : ndb.attr_name with
        | none =>
          rw [hban] at hupd
          simp only [Option.some_inj, Prod.mk.injEq] at hupd
          obtain ⟨rfl, rfl⟩ := hupd
          exact hinv_b m hm
        | some a =>
          rw [hban] at hupd
          simp only [] at hupd
          cases hkey : r.get? a with
          | none => rw [hkey] at hupd; cases hupd
          | some key =>
            rw [hkey] at hupd
            simp only [] at hupd
            cases hchild : alook ndb.branches key with
            | none => rw [hchild] at hupd; cases hupd
            | some child =>
              rw [hchild] at hupd
              simp only [] at hupd
              cases hrec : Node.update cfg f child (r.eraseKey a) with
              | none => rw [hrec] at hupd; cases hupd
              | some p =>
                rw [hrec] at hupd
                rcases p with ⟨c1, r2⟩
                simp only [Option.some_inj, Prod.mk.injEq] at hupd
                obtain ⟨rfl, rfl⟩ := hupd
                have hchildinv : ∀ m, Subnode m child → m.classInv cfg := by
                  intro m hm
                  exact hinv_b m (Subnode.branch key (alook_mem hchild) hm)
                have hc1inv := ih child (r.eraseKey a) c1 r2 hchildinv hrec
                cases hm with
                | refl =>
                  have h0 := hinv_b ndb (Subnode.refl ndb)
                  rw [Node.classInv] at h0 ⊢
                  exact h0
                | branch v hmem hsub =>
                  rename_i c
                  have hmem2 : (v, c) ∈ aupd ndb.branches key Node.empty (fun _ => c1) := hmem
                  rcases mem_aupd ndb.branches key Node.empty c1 (v, c) hmem2 with hold | hnew
                  · exact hinv_b m (Subnode.branch v hold hsub)
                  · have hnew2 : c = c1 := hnew
                    rw [hnew2] at hsub
                    exact hc1inv m hsub

/-- A regression configuration for the batch builder (Tree defaults:
leaf_threshold 0 for a continuous class, no auto_grow). -/
def cfgC3 : Config :=
  ⟨true, .variance1, 100, some 0, false, "cls",
    [], [("a", ATTR_TYPE_DISCRETE), ("cls", ATTR_TYPE_CONTINUOUS)]⟩

/-- A two-row regression dataset. -/
def batchData : List Record :=
  [[("a", Value.int 1), ("cls", Value.num 0)], [("a", Value.int 2), ("cls", Value.num 1)]]

/-- The root node the batch builder produces on batchData: it splits on a,
sets n to 2, stores the two leaf distributions, and leaves the class
distributions empty. -/
def nodeC3batch : Node :=
  .mk 2 (some "a") [] [] [] DDist.empty
    [("a", [(Value.int 1, ⟨0, 1, 0⟩), (Value.int 2, ⟨1, 1, 0⟩)])] CDist.empty []

/-- Counterexample to C3 as stated: the batch builder create_decision_tree
returns a Node with n = 2 whose class CDist count is 0, breaking
n == class_cdist.count. -/
theorem batch_node_breaks_class_count_invariant :
    create_decision_tree gain_variance cfgC3 3 batchData ["a", "cls"] "cls"
      = some (.node nodeC3batch) ∧
    nodeC3batch.n = 2 ∧ nodeC3batch.class_cdist.count = 0 ∧
    ¬ nodeC3batch.classInv cfgC3 := by
  refine ⟨?_, rfl, rfl, ?_⟩
  · norm_num +decide [create_decision_tree, choose_attribute, bestAttrBy, gain_variance,
      gainG, gainSubLoop, gainSubStep, gainTotal, val_freqOf, bump, entropy_variance,
      variance, mean, get_values_data, uniqueList, Node.set_leaf_dist, data_is_valid,
      Node.setBranch, CDist.ofList, CDist.iadd, CDist.mean, CDist.variance, CDist.empty,
      DDist.ofList, DDist.add, DDist.empty, aupd, alook, alookD, bump, lookupCount,
      Record.get?, Record.getD, Value.toQ, Value.isNumeric, Metric.isContinuousMetric,
      cfgC3, batchData, nodeC3batch, Node.attr_name, Node.n, Node.attr_value_counts,
      Node.attr_value_count_totals, Node.attr_class_value_counts, Node.class_ddist,
      Node.attr_value_cdist, Node.class_cdist, Node.branches, ATTR_TYPE_DISCRETE,
      ATTR_TYPE_CONTINUOUS, List.filter, List.mapM, List.mapM.loop, List.foldlM,
      List.foldl, List.map, Option.map, Option.bind]
  · simp [Node.classInv, cfgC3, nodeC3batch, CDist.count, CDist.empty, Node.class_cdist,
      Node.n]

/-- A classification configuration with no online growth, for the witness. -/
def cfgC3w : Config := ⟨false, .entropy1, 100, some 1, false, "cls", [], []⟩

/-- The node reached from an empty node by one update with cls=x under
cfgC3w. -/
def nodeC3w : Node :=
  .mk 1 Option.none [] [] [] (DDist.mk [(Value.str "x", 1)] 1) [] CDist.empty []

/-- Witness for C3 (amended): after one online update of an empty root the
invariant holds at the resulting root node. -/
theorem update_preserves_class_count_invariant_witness :
    nodeC3w.classInv cfgC3w :=
  update_preserves_class_count_invariant cfgC3w 1 Node.empty [("cls", Value.str "x")]
    nodeC3w [("cls", Value.str "x")]
    (fun m hm => by
      cases hm with
      | refl => simp [Node.classInv, cfgC3w, Node.empty, DDist.empty, DDist.total,
          Node.class_ddist, Node.n]
      | branch v hmem hsub => simp [Node.empty, Node.branches] at hmem)
    (by norm_num +decide [Node.update, Node.updateStats, Node.updateAttrStat,
      Node.splitIfReady, Node.ready_to_split, DDist.best_prob, DDist.add, DDist.empty,
      bump, aupd, alook, alookD, Record.get?, cfgC3w, nodeC3w, Node.empty, Node.n,
      Node.attr_name, Node.attr_value_counts, Node.attr_value_count_totals,
      Node.attr_class_value_counts, Node.class_ddist, Node.attr_value_cdist,
      Node.class_cdist, Node.branches, CDist.empty])
    nodeC3w (Subnode.refl nodeC3w)

/-! ## Claim C9: the caller record is never mutated -/

/-- A continuous-class online configuration for the C9 witness. -/
def cfgC9 : Config :=
  ⟨true, .variance1, 1, Option.none, true, "cls",
    [], [("a", ATTR_TYPE_DISCRETE), ("cls", ATTR_TYPE_CONTINUOUS)]⟩

/-- A node already split on a, with one child for value 1. -/
def nodeC9 : Node :=
  .mk 1 (some "a") [("a", [(Value.int 1, 1)])] [("a", 1)] [] DDist.empty
    [("a", [(Value.int 1, ⟨1/2, 1, 0⟩)])] ⟨1/2, 1, 0⟩
    [(Value.int 1, .mk 1 Option.none [] [] [] DDist.empty [] ⟨1/2, 1, 0⟩ [])]

/-- The caller record for the C9 witness. -/
def r9 : Record := [("a", Value.int 1), ("cls", Value.num (3 / 4))]

/-- The root node after updating nodeC9 with r9. -/
def ndC9res : Node :=
  .mk 2 (some "a") [("a", [(Value.int 1, 2)])] [("a", 2)] [] DDist.empty
    [("a", [(Value.int 1, ⟨5/4, 2, 1/32⟩)])] ⟨5/4, 2, 1/32⟩
    [(Value.int 1, .mk 2 Option.none [] [] [] DDist.empty [] ⟨5/4, 2, 1/32⟩ [])]

/-- Claim C9: Tree.update passes only a copy of the caller record down to
Node.update, so the caller-record state it reports back is the original
record unchanged, even though Node.update deletes the split-attribute
entries from the record it receives; Tree.predict likewise consults only
the copy, and Node.predict performs no record mutation at all (it returns
no record state). -/
theorem tree_update_preserves_caller_record (cfg : Config) (fuel : ℕ) (root : Node)
    (r : Record) (p : Node × Record)
    (h : Tree.update cfg fuel root r = some p) :
    p.2 = r ∧ Tree.predict cfg fuel root r = Node.predict cfg fuel root r := by
  constructor
  · rw [Tree.update] at h
    cases hg : Record.get? r cfg.class_attr with
    | none =>
      rw [hg] at h
      exact absurd h (by simp)
    | some c =>
      rw [hg] at h
      simp only [] at h
      cases hn : Node.update cfg fuel root r.copy with
      | none =>
        rw [hn] at h
        exact absurd h (by simp)
      | some q =>
        rw [hn] at h
        simp only [Option.map_some'] at h
        obtain rfl : (q.1, r) = p := Option.some_inj.mp h
        rfl
  · rfl

/-- Witness for C9: updating the split node nodeC9 with r9 erases the a
entry from the record threaded through Node.update, yet Tree.update reports
the caller record r9 back intact. -/
theorem tree_update_preserves_caller_record_witness :
    Tree.update cfgC9 2 nodeC9 r9 = some (ndC9res, r9) ∧
    (ndC9res, r9).2 = r9 ∧
    Tree.predict cfgC9 2 nodeC9 r9 = Node.predict cfgC9 2 nodeC9 r9 ∧
    (Node.update cfgC9 2 nodeC9 (Record.copy r9)).map Prod.snd
      = some (Record.eraseKey r9 "a") ∧
    Record.eraseKey r9 "a" ≠ r9 := by
  have hnode : Node.update cfgC9 2 nodeC9 (Record.copy r9)
      = some (ndC9res, [("cls", Value.num (3 / 4))]) := by
    norm_num +decide [Node.update, Node.updateStats, Node.updateAttrStat, Node.splitIfReady,
      Node.ready_to_split, Node.get_best_splitting_attr, bestAttrBy, Node.get_gain_con,
      Node.get_entropy_con, Node.get_value_prob, Node.attributes, Node.avCountsAt,
      Node.avCdistAt, CDist.variance, CDist.iadd, CDist.mean, CDist.empty, DDist.empty,
      aupd, alook, alookD, bump, lookupCount, Record.get?, Record.eraseKey, Record.copy,
      Value.toQ, Node.empty, Node.setBranch, cfgC9, nodeC9, r9, ndC9res, Node.n,
      Node.attr_name, Node.attr_value_counts, Node.attr_value_count_totals,
      Node.attr_class_value_counts, Node.class_ddist, Node.attr_value_cdist,
      Node.class_cdist, Node.branches]
  have htree : Tree.update cfgC9 2 nodeC9 r9 = some (ndC9res, r9) := by
    rw [Tree.update]
    rw [show Record.get? r9 cfgC9.class_attr = some (Value.num (3 / 4)) by
      norm_num +decide [Record.get?, r9, cfgC9]]
    simp only []
    rw [hnode]
    rfl
  have hmain := tree_update_preserves_caller_record cfgC9 2 nodeC9 r9 (ndC9res, r9) htree
  refine ⟨htree, hmain.1, hmain.2, ?_, ?_⟩
  · rw [hnode]
    norm_num +decide [Record.eraseKey, r9]
  · norm_num +decide [Record.eraseKey, r9]
